import Mathlib

set_option maxRecDepth 100000

/-!
Verification of the Waste-Mitra repository's response-parsing, validation,
persistence and reporting logic, shallowly embedded from the Python source
(`waste_classifier/views.py`, `gemini_service.py`, `serializers.py`,
`models.py`, `pdf_report.py`).  Strings are embedded as `List Char`,
Python floats as exact fractions (`PyNum`), JSON values as an inductive
`Json` type, and `json.loads` as a fuel-based recursive-descent parser.
-/

/-! ## Character classes and Python string primitives -/

/-- Whitespace stripped by Python's `str.strip()` (ASCII part). -/
def isPyWs (c : Char) : Bool :=
  c = ' ' || c = '\t' || c = '\n' || c = '\r' || c = '\x0b' || c = '\x0c'

/-- Whitespace skipped by the JSON grammar (`json.loads`). -/
def isJsonWs (c : Char) : Bool :=
  c = ' ' || c = '\t' || c = '\n' || c = '\r'

/-- Convert a Lean string literal to the character-list representation. -/
def strL (s : String) : List Char := s.toList

/-- Python `str.strip()`: drop leading and trailing whitespace. -/
def pyStrip (cs : List Char) : List Char :=
  ((cs.dropWhile isPyWs).reverse.dropWhile isPyWs).reverse

/-- Python slice `s[a:b]`. -/
def pySlice (cs : List Char) (a b : Nat) : List Char :=
  (cs.drop a).take (b - a)

/-! ## Substring search (Python `in`, `str.find`, `str.rfind`) -/

/-- Does `pat` occur in `cs` starting at index `i`? -/
def occursAt (pat cs : List Char) (i : Nat) : Bool :=
  pat.isPrefixOf (cs.drop i)

/-- Index of the first occurrence of `pat` in `cs` (Python `find`, successful case). -/
def findSub (pat : List Char) : List Char → Option Nat
  | [] => if pat.isEmpty then some 0 else none
  | c :: t =>
    if pat.isPrefixOf (c :: t) then some 0
    else (findSub pat t).map (· + 1)

/-- Index of the last occurrence of `pat` in `cs` (Python `rfind`, successful case). -/
def rfindSub (pat : List Char) : List Char → Option Nat
  | [] => if pat.isEmpty then some 0 else none
  | c :: t =>
    match rfindSub pat t with
    | some p => some (p + 1)
    | none => if pat.isPrefixOf (c :: t) then some 0 else none

/-- Python `pat in s`. -/
def containsSub (pat cs : List Char) : Bool :=
  (findSub pat cs).isSome

/-! ## JSON values and `json.loads` -/

/-- The exact value of a Python float or JSON number, kept as an unreduced
fraction (numerator over positive denominator).  Mathlib's `ℚ` has
`@[irreducible]` arithmetic, so this kernel-computable representation is used
for all embedded computation; `PyNum.toRat` gives the mathematical value. -/
structure PyNum where
  num : Int
  den : Nat
deriving DecidableEq

/-- The rational value represented by a `PyNum`. -/
def PyNum.toRat (x : PyNum) : ℚ := (x.num : ℚ) / (x.den : ℚ)

/-- A parsed JSON value (the result of Python's `json.loads`). -/
inductive Json where
  | null : Json
  | bool (b : Bool) : Json
  | num (q : PyNum) : Json
  | str (s : List Char) : Json
  | arr (elems : List Json) : Json
  | obj (fields : List (List Char × Json)) : Json

/-- Skip JSON whitespace. -/
def skipWs (cs : List Char) : List Char := cs.dropWhile isJsonWs

def isDigitCh (c : Char) : Bool := '0' ≤ c && c ≤ '9'

def digitVal (c : Char) : Nat := c.toNat - '0'.toNat

def digitsToNat (ds : List Char) : Nat := ds.foldl (fun a c => 10 * a + digitVal c) 0

def hexVal (c : Char) : Option Nat :=
  let n := c.toNat
  if 48 ≤ n && n ≤ 57 then some (n - 48)
  else if 97 ≤ n && n ≤ 102 then some (n - 87)
  else if 65 ≤ n && n ≤ 70 then some (n - 55)
  else none

/-- Parse the body of a JSON string literal, after the opening quote.
Returns the decoded characters and the input remaining after the closing quote. -/
def parseStringRest : List Char → Option (List Char × List Char)
  | [] => none
  | '"' :: rest => some ([], rest)
  | '\\' :: e :: rest =>
    if e = '"' then (parseStringRest rest).map (fun p => ('"' :: p.1, p.2))
    else if e = '\\' then (parseStringRest rest).map (fun p => ('\\' :: p.1, p.2))
    else if e = '/' then (parseStringRest rest).map (fun p => ('/' :: p.1, p.2))
    else if e = 'b' then (parseStringRest rest).map (fun p => ('\x08' :: p.1, p.2))
    else if e = 'f' then (parseStringRest rest).map (fun p => ('\x0c' :: p.1, p.2))
    else if e = 'n' then (parseStringRest rest).map (fun p => ('\n' :: p.1, p.2))
    else if e = 'r' then (parseStringRest rest).map (fun p => ('\r' :: p.1, p.2))
    else if e = 't' then (parseStringRest rest).map (fun p => ('\t' :: p.1, p.2))
    else if e = 'u' then
      match rest with
      | h1 :: h2 :: h3 :: h4 :: rest2 =>
        match hexVal h1, hexVal h2, hexVal h3, hexVal h4 with
        | some a, some b, some c, some d =>
          (parseStringRest rest2).map
            (fun p => (Char.ofNat (4096 * a + 256 * b + 16 * c + d) :: p.1, p.2))
        | _, _, _, _ => none
      | _ => none
    else none
  | c :: rest =>
    if c.toNat < 32 then none
    else (parseStringRest rest).map (fun p => (c :: p.1, p.2))

/-- Assemble a JSON number value from its parsed parts. -/
def mkNumber (neg : Bool) (intPart fracNum fracDigits : Nat) (ex : Int) : PyNum :=
  let n : Int := ((intPart * 10 ^ fracDigits + fracNum : Nat) : Int)
  let n : Int := if neg then -n else n
  match ex with
  | Int.ofNat e => ⟨n * 10 ^ e, 10 ^ fracDigits⟩
  | Int.negSucc e => ⟨n, 10 ^ fracDigits * 10 ^ (e + 1)⟩

/-- Parse a JSON number starting at the head of the input (Python's number
grammar: optional minus, integer part without leading zeros, optional
fraction, optional exponent). -/
def parseNumber (cs : List Char) : Option (PyNum × List Char) :=
  let signAndRest : Bool × List Char :=
    match cs with
    | '-' :: r => (true, r)
    | _ => (false, cs)
  let neg := signAndRest.1
  let cs1 := signAndRest.2
  let ds := cs1.takeWhile isDigitCh
  let rest1 := cs1.dropWhile isDigitCh
  if ds.isEmpty then none
  else if 1 < ds.length && ds.head? = some '0' then none
  else
    let fracRes : Nat × Nat × List Char :=
      match rest1 with
      | '.' :: r =>
        let fs := r.takeWhile isDigitCh
        if fs.isEmpty then (0, 0, rest1)
        else (digitsToNat fs, fs.length, r.dropWhile isDigitCh)
      | _ => (0, 0, rest1)
    let fracNum := fracRes.1
    let fracDigits := fracRes.2.1
    let rest2 := fracRes.2.2
    let expRes : Int × List Char :=
      match rest2 with
      | e :: r =>
        if e = 'e' || e = 'E' then
          match r with
          | '+' :: r2 =>
            let es := r2.takeWhile isDigitCh
            if es.isEmpty then (0, rest2)
            else ((digitsToNat es : Int), r2.dropWhile isDigitCh)
          | '-' :: r2 =>
            let es := r2.takeWhile isDigitCh
            if es.isEmpty then (0, rest2)
            else (-(digitsToNat es : Int), r2.dropWhile isDigitCh)
          | _ =>
            let es := r.takeWhile isDigitCh
            if es.isEmpty then (0, rest2)
            else ((digitsToNat es : Int), r.dropWhile isDigitCh)
        else (0, rest2)
      | [] => (0, rest2)
    let ex := expRes.1
    let rest3 := expRes.2
    some (mkNumber neg (digitsToNat ds) fracNum fracDigits ex, rest3)

/-- The computation of `parseNumber` after the optional leading minus has
been removed; `parseNumber` reduces to it in both sign cases. -/
def numTail (neg : Bool) (cs1 : List Char) : Option (PyNum × List Char) :=
  let ds := cs1.takeWhile isDigitCh
  let rest1 := cs1.dropWhile isDigitCh
  if ds.isEmpty then none
  else if 1 < ds.length && ds.head? = some '0' then none
  else
    let fracRes : Nat × Nat × List Char :=
      match rest1 with
      | '.' :: r =>
        let fs := r.takeWhile isDigitCh
        if fs.isEmpty then (0, 0, rest1)
        else (digitsToNat fs, fs.length, r.dropWhile isDigitCh)
      | _ => (0, 0, rest1)
    let fracNum := fracRes.1
    let fracDigits := fracRes.2.1
    let rest2 := fracRes.2.2
    let expRes : Int × List Char :=
      match rest2 with
      | e :: r =>
        if e = 'e' || e = 'E' then
          match r with
          | '+' :: r2 =>
            let es := r2.takeWhile isDigitCh
            if es.isEmpty then (0, rest2)
            else ((digitsToNat es : Int), r2.dropWhile isDigitCh)
          | '-' :: r2 =>
            let es := r2.takeWhile isDigitCh
            if es.isEmpty then (0, rest2)
            else (-(digitsToNat es : Int), r2.dropWhile isDigitCh)
          | _ =>
            let es := r.takeWhile isDigitCh
            if es.isEmpty then (0, rest2)
            else ((digitsToNat es : Int), r.dropWhile isDigitCh)
        else (0, rest2)
      | [] => (0, rest2)
    let ex := expRes.1
    let rest3 := expRes.2
    some (mkNumber neg (digitsToNat ds) (fracNum) fracDigits ex, rest3)

mutual

/-- Fuel-based recursive-descent parser for a JSON value.  Mirrors the
grammar accepted by Python's `json.loads`.  Returns the value and the
remaining input. -/
def parseVal : Nat → List Char → Option (Json × List Char)
  | 0, _ => none
  | Nat.succ fuel, cs =>
    match skipWs cs with
    | [] => none
    | c :: rest =>
      if c = '\x7b' then
        match skipWs rest with
        | '\x7d' :: rest2 => some (Json.obj [], rest2)
        | _ => (parseMembers fuel rest).map (fun p => (Json.obj p.1, p.2))
      else if c = '[' then
        match skipWs rest with
        | ']' :: rest2 => some (Json.arr [], rest2)
        | _ => (parseElems fuel rest).map (fun p => (Json.arr p.1, p.2))
      else if c = '"' then
        (parseStringRest rest).map (fun p => (Json.str p.1, p.2))
      else if c = 't' then
        match rest with
        | 'r' :: 'u' :: 'e' :: rest2 => some (Json.bool true, rest2)
        | _ => none
      else if c = 'f' then
        match rest with
        | 'a' :: 'l' :: 's' :: 'e' :: rest2 => some (Json.bool false, rest2)
        | _ => none
      else if c = 'n' then
        match rest with
        | 'u' :: 'l' :: 'l' :: rest2 => some (Json.null, rest2)
        | _ => none
      else if c = '-' || isDigitCh c then
        (parseNumber (c :: rest)).map (fun p => (Json.num p.1, p.2))
      else none

/-- Parse a nonempty member list of a JSON object, positioned just after
the opening brace (or after a comma); consumes through the closing brace. -/
def parseMembers : Nat → List Char → Option (List (List Char × Json) × List Char)
  | 0, _ => none
  | Nat.succ fuel, cs =>
    match skipWs cs with
    | '"' :: rest =>
      match parseStringRest rest with
      | some (key, rest2) =>
        match skipWs rest2 with
        | ':' :: rest3 =>
          match parseVal fuel rest3 with
          | some (v, rest4) =>
            match skipWs rest4 with
            | ',' :: rest5 =>
              (parseMembers fuel rest5).map (fun p => ((key, v) :: p.1, p.2))
            | '\x7d' :: rest5 => some ([(key, v)], rest5)
            | _ => none
          | none => none
        | _ => none
      | none => none
    | _ => none

/-- Parse a nonempty element list of a JSON array, positioned just after
the opening bracket (or after a comma); consumes through the closing bracket. -/
def parseElems : Nat → List Char → Option (List Json × List Char)
  | 0, _ => none
  | Nat.succ fuel, cs =>
    match parseVal fuel cs with
    | some (v, rest) =>
      match skipWs rest with
      | ',' :: rest2 => (parseElems fuel rest2).map (fun p => (v :: p.1, p.2))
      | ']' :: rest2 => some ([v], rest2)
      | _ => none
    | none => none

end

/-- Python `json.loads`: parse one JSON value and require that only
whitespace remains ("Extra data" otherwise). -/
def loads (cs : List Char) : Option Json :=
  match parseVal (cs.length + 1) cs with
  | some (v, rest) => match skipWs rest with
    | [] => some v
    | _ :: _ => none
  | none => none

/-! ## The view-layer response parser (`views.parse_gemini_response`)

Embedded from `waste_classifier/views.py` lines 20–77: a direct parse
followed by three fallbacks (slicing between the first ` ```json ` marker and
the last ` ``` `, regex `r &#96;&#96;&#96;json\s*(.*?)\s*&#96;&#96;&#96;`,
regex `(\{.*\})`), raising `ValueError` — here `none` — when all fail. -/

/-- The ` ```json ` marker. -/
def patFenceJson : List Char := strL "```json"

/-- The ` ``` ` fence. -/
def patFence : List Char := strL "```"

/-- Stage 1: `json.loads` on the whitespace-stripped response. -/
def stage1 (cleaned : List Char) : Option Json := loads cleaned

/-- Stage 2: if ` ```json ` occurs, slice from just after its first
occurrence to the last ` ``` ` occurrence (when that span is nonempty),
strip, and parse. -/
def stage2 (cleaned : List Char) : Option Json :=
  if containsSub patFenceJson cleaned then
    match findSub patFenceJson cleaned, rfindSub patFence cleaned with
    | some f, some e =>
      if f + 7 < e then loads (pyStrip (pySlice cleaned (f + 7) e)) else none
    | _, _ => none
  else none

/-- Stage 3: the search `re.search` with the lazy fenced-block pattern.  The
leftmost match starts at the first ` ```json ` occurrence that is followed by
a later ` ``` `; lazy matching ends the group at the first such ` ``` `
(flanking whitespace is stripped by the subsequent `.strip()`). -/
def stage3 (cleaned : List Char) : Option Json :=
  match findSub patFenceJson cleaned with
  | some p =>
    match findSub patFence (cleaned.drop (p + 7)) with
    | some q => loads (pyStrip (pySlice cleaned (p + 7) (p + 7 + q)))
    | none => none
  | none => none

/-- Stage 4: the search `re.search` with the greedy pattern `(\{.*\})` under
`DOTALL`: the span from the first `\x7b` to the last `\x7d` of the whole
text, parsed as-is. -/
def stage4 (cleaned : List Char) : Option Json :=
  match findSub (strL "\x7b") cleaned, rfindSub (strL "\x7d") cleaned with
  | some i, some j => if i < j then loads (pySlice cleaned i (j + 1)) else none
  | _, _ => none

/-- `views.parse_gemini_response`, embedded with the source's control flow:
strip, try a direct parse, then the three fallbacks in order; `none` models
the final `raise ValueError`. -/
def parse_gemini_response (raw : List Char) : Option Json :=
  let cleaned := pyStrip raw
  match loads cleaned with
  | some v => some v
  | none =>
    let s2 : Option Json :=
      if containsSub patFenceJson cleaned then
        match findSub patFenceJson cleaned, rfindSub patFence cleaned with
        | some f, some e =>
          if f + 7 < e then loads (pyStrip (pySlice cleaned (f + 7) e)) else none
        | _, _ => none
      else none
    match s2 with
    | some v => some v
    | none =>
      let s3 : Option Json :=
        match findSub patFenceJson cleaned with
        | some p =>
          match findSub patFence (cleaned.drop (p + 7)) with
          | some q => loads (pyStrip (pySlice cleaned (p + 7) (p + 7 + q)))
          | none => none
        | none => none
      match s3 with
      | some v => some v
      | none =>
        match findSub (strL "\x7b") cleaned, rfindSub (strL "\x7d") cleaned with
        | some i, some j =>
          if i < j then loads (pySlice cleaned i (j + 1)) else none
        | _, _ => none

/-! ## The service-layer parser (`GeminiWasteAnalyzer._parse_gemini_json_response`)

Embedded from `waste_classifier/gemini_service.py` lines 40–73: strip, remove
a leading ` ```json ` or ` ``` ` fence and a trailing ` ``` ` fence, strip
again, and parse once (re-raising `json.JSONDecodeError` — here `none` — on
failure). -/

/-- The leading-fence removal of the service-layer parser (`cleaned2 = ...`
in gemini_service.py): drop a ` ```json ` or ` ``` ` prefix. -/
def serviceClean2 (cleaned : List Char) : List Char :=
  if patFenceJson.isPrefixOf cleaned then cleaned.drop 7
  else if patFence.isPrefixOf cleaned then cleaned.drop 3
  else cleaned

/-- The trailing-fence removal of the service-layer parser (`cleaned3 = ...`
in gemini_service.py): drop a ` ``` ` suffix. -/
def serviceClean3 (cleaned2 : List Char) : List Char :=
  if patFence.isSuffixOf cleaned2 then cleaned2.take (cleaned2.length - 3)
  else cleaned2

/-- The fence-removal cleanup performed by the service-layer parser. -/
def serviceClean (raw : List Char) : List Char :=
  pyStrip (serviceClean3 (serviceClean2 (pyStrip raw)))

/-- `GeminiWasteAnalyzer._parse_gemini_json_response`. -/
def parse_gemini_json_response (raw : List Char) : Option Json :=
  loads (serviceClean raw)

/-- Modelled from the spec: the response-parsing routine exactly as §4 of the
spec words it — "strip a leading/trailing triple-backtick fence (optionally
tagged `json`), then parse as JSON; on failure, retry by locating the first
` ```json ` block, then by regex-searching for a fenced block, then by
regex-searching for the first `\x7b...\x7d` span" read as the earliest
brace-delimited span (first `\x7b` to the first `\x7d` after it).  Used only
to compare the spec's description of the steps against the code. -/
def specParseResponse (raw : List Char) : Option Json :=
  let cleaned := pyStrip raw
  match loads (serviceClean raw) with
  | some v => some v
  | none =>
    match stage2 cleaned with
    | some v => some v
    | none =>
      match stage3 cleaned with
      | some v => some v
      | none =>
        match findSub (strL "\x7b") cleaned with
        | some i =>
          match findSub (strL "\x7d") (cleaned.drop (i + 1)) with
          | some k => loads (pySlice cleaned i (i + 1 + k + 1))
          | none => none
        | none => none

/-! ## Python float coercion and `round`

`float(x)` as applied by the update block (`views.py` line 210), and
Python's banker's rounding `round(x, 2)` used when building responses. -/

/-- Python `float(s)` on a string: optional sign, decimal digits with
optional fraction, optional exponent, surrounding whitespace ignored;
`none` models `ValueError`. -/
def floatOfString (s : List Char) : Option PyNum :=
  let t := pyStrip s
  let signAndRest : Bool × List Char :=
    match t with
    | '-' :: r => (true, r)
    | '+' :: r => (false, r)
    | _ => (false, t)
  let neg := signAndRest.1
  let t1 := signAndRest.2
  let ip := t1.takeWhile isDigitCh
  let r1 := t1.dropWhile isDigitCh
  let fracRes : Nat × Nat × List Char :=
    match r1 with
    | '.' :: r => (digitsToNat (r.takeWhile isDigitCh),
                   (r.takeWhile isDigitCh).length, r.dropWhile isDigitCh)
    | _ => (0, 0, r1)
  let fn := fracRes.1
  let fd := fracRes.2.1
  let r2 := fracRes.2.2
  if ip.isEmpty && fd = 0 then none
  else
    match r2 with
    | [] => some (mkNumber neg (digitsToNat ip) fn fd 0)
    | e :: r3 =>
      if e = 'e' || e = 'E' then
        let se : Bool × List Char :=
          match r3 with
          | '+' :: r4 => (false, r4)
          | '-' :: r4 => (true, r4)
          | _ => (false, r3)
        let es := se.2.takeWhile isDigitCh
        let r5 := se.2.dropWhile isDigitCh
        if es.isEmpty || !r5.isEmpty then none
        else some (mkNumber neg (digitsToNat ip) fn fd
          (if se.1 then -(digitsToNat es : Int) else (digitsToNat es : Int)))
      else none

/-- Python `float(x)` on a parsed JSON value: numbers pass through, booleans
coerce to 0 or 1, strings are parsed; `None`, lists and dicts raise
(`none`). -/
def pyFloatOfJson : Json → Option PyNum
  | Json.num q => some q
  | Json.bool b => some (if b then ⟨1, 1⟩ else ⟨0, 1⟩)
  | Json.str s => floatOfString s
  | _ => none

/-- Round-half-even of the fraction `n / d` (`d` positive) to an integer. -/
def roundHalfEvenInt (n : Int) (d : Nat) : Int :=
  let k := Int.fdiv n (d : Int)
  let r2 : Int := 2 * (n - k * (d : Int))
  if r2 < (d : Int) then k
  else if (d : Int) < r2 then k + 1
  else if k % 2 = 0 then k else k + 1

/-- Python `round(x, 2)`. -/
def pyRound2 (q : PyNum) : PyNum := ⟨roundHalfEvenInt (q.num * 100) q.den, 100⟩

/-- `round(conf * 100, 2)`: the confidence percentage put into responses
(`views.py` line 237). -/
def confidencePercent (q : PyNum) : PyNum := pyRound2 ⟨q.num * 100, q.den⟩

/-! ## The data model (`models.py`) -/

/-- `WasteClassification.INDIAN_STATES` (models.py lines 19–32). -/
def INDIAN_STATES : List (List Char × List Char) := [
  (strL "AP", strL "Andhra Pradesh"), (strL "AR", strL "Arunachal Pradesh"),
  (strL "AS", strL "Assam"), (strL "BR", strL "Bihar"),
  (strL "CT", strL "Chhattisgarh"), (strL "GA", strL "Goa"),
  (strL "GJ", strL "Gujarat"), (strL "HR", strL "Haryana"),
  (strL "HP", strL "Himachal Pradesh"), (strL "JH", strL "Jharkhand"),
  (strL "KA", strL "Karnataka"), (strL "KL", strL "Kerala"),
  (strL "MP", strL "Madhya Pradesh"), (strL "MH", strL "Maharashtra"),
  (strL "MN", strL "Manipur"), (strL "ML", strL "Meghalaya"),
  (strL "MZ", strL "Mizoram"), (strL "NL", strL "Nagaland"),
  (strL "OR", strL "Odisha"), (strL "PB", strL "Punjab"),
  (strL "RJ", strL "Rajasthan"), (strL "SK", strL "Sikkim"),
  (strL "TN", strL "Tamil Nadu"), (strL "TG", strL "Telangana"),
  (strL "TR", strL "Tripura"), (strL "UP", strL "Uttar Pradesh"),
  (strL "UT", strL "Uttarakhand"), (strL "WB", strL "West Bengal"),
  (strL "AN", strL "Andaman and Nicobar"), (strL "CH", strL "Chandigarh"),
  (strL "DH", strL "Dadra and Nagar Haveli"), (strL "DD", strL "Daman and Diu"),
  (strL "DL", strL "Delhi"), (strL "JK", strL "Jammu and Kashmir"),
  (strL "LA", strL "Ladakh"), (strL "LD", strL "Lakshadweep"),
  (strL "PY", strL "Puducherry")]

/-- `GeminiWasteAnalyzer.INDIAN_STATES` (gemini_service.py lines 21–34): the
service layer's own code-to-name mapping, with the same 37 entries. -/
def GEMINI_INDIAN_STATES : List (List Char × List Char) := [
  (strL "AP", strL "Andhra Pradesh"), (strL "AR", strL "Arunachal Pradesh"),
  (strL "AS", strL "Assam"), (strL "BR", strL "Bihar"),
  (strL "CT", strL "Chhattisgarh"), (strL "GA", strL "Goa"),
  (strL "GJ", strL "Gujarat"), (strL "HR", strL "Haryana"),
  (strL "HP", strL "Himachal Pradesh"), (strL "JH", strL "Jharkhand"),
  (strL "KA", strL "Karnataka"), (strL "KL", strL "Kerala"),
  (strL "MP", strL "Madhya Pradesh"), (strL "MH", strL "Maharashtra"),
  (strL "MN", strL "Manipur"), (strL "ML", strL "Meghalaya"),
  (strL "MZ", strL "Mizoram"), (strL "NL", strL "Nagaland"),
  (strL "OR", strL "Odisha"), (strL "PB", strL "Punjab"),
  (strL "RJ", strL "Rajasthan"), (strL "SK", strL "Sikkim"),
  (strL "TN", strL "Tamil Nadu"), (strL "TG", strL "Telangana"),
  (strL "TR", strL "Tripura"), (strL "UP", strL "Uttar Pradesh"),
  (strL "UT", strL "Uttarakhand"), (strL "WB", strL "West Bengal"),
  (strL "AN", strL "Andaman and Nicobar"), (strL "CH", strL "Chandigarh"),
  (strL "DH", strL "Dadra and Nagar Haveli"), (strL "DD", strL "Daman and Diu"),
  (strL "DL", strL "Delhi"), (strL "JK", strL "Jammu and Kashmir"),
  (strL "LA", strL "Ladakh"), (strL "LD", strL "Lakshadweep"),
  (strL "PY", strL "Puducherry")]

/-- `WasteClassification.WASTE_CATEGORIES` (models.py lines 9–17). -/
def WASTE_CATEGORIES : List (List Char × List Char) := [
  (strL "MEDICAL", strL "Medical Waste"), (strL "E_WASTE", strL "E-Waste"),
  (strL "GENERAL", strL "General Waste"),
  (strL "RECYCLABLE", strL "Recyclable Waste"),
  (strL "NON_RECYCLABLE", strL "Non-Recyclable Waste"),
  (strL "HAZARDOUS", strL "Hazardous Waste"),
  (strL "ORGANIC", strL "Organic Waste")]

/-- A persisted `WasteClassification` row.  Text columns hold the raw values
the update block assigns (`TextField`/`CharField`, created blank); the
confidence column is nullable (`FloatField(null=True)`). -/
structure WasteRow where
  id : Nat
  image : List Char
  state : List Char
  predicted_category : Json
  confidence_score : Option PyNum
  waste_description : Json
  disposal_instructions : Json
  state_specific_laws : Json
  authorized_facilities : Json
  health_hazards : Json
  environmental_risks : Json
  precautions : Json
  protective_equipment : Json
  emergency_procedures : Json
  recyclability_info : Json
  cost_implications : Json
  gemini_raw_response : Option (List Char)

/-- `WasteClassification.objects.create(image=..., state=...)`: a fresh row
with every classification field at its blank default. -/
def createRow (id : Nat) (image state : List Char) : WasteRow :=
  { id := id
    image := image
    state := state
    predicted_category := Json.str []
    confidence_score := none
    waste_description := Json.str []
    disposal_instructions := Json.str []
    state_specific_laws := Json.str []
    authorized_facilities := Json.str []
    health_hazards := Json.str []
    environmental_risks := Json.str []
    precautions := Json.str []
    protective_equipment := Json.str []
    emergency_procedures := Json.str []
    recyclability_info := Json.str []
    cost_implications := Json.str []
    gemini_raw_response := none }

/-- Does a row still carry only its creation data (classification fields
blank, confidence null, raw response null)? -/
def classificationFieldsEmpty (r : WasteRow) : Prop :=
  r.predicted_category = Json.str [] ∧ r.confidence_score = none ∧
  r.waste_description = Json.str [] ∧ r.disposal_instructions = Json.str [] ∧
  r.state_specific_laws = Json.str [] ∧ r.authorized_facilities = Json.str [] ∧
  r.health_hazards = Json.str [] ∧ r.environmental_risks = Json.str [] ∧
  r.precautions = Json.str [] ∧ r.protective_equipment = Json.str [] ∧
  r.emergency_procedures = Json.str [] ∧ r.recyclability_info = Json.str [] ∧
  r.cost_implications = Json.str [] ∧ r.gemini_raw_response = none

/-! ## Serializer validation (`serializers.py`) -/

/-- An uploaded file as DRF sees it: its size, declared content type, and
whether Pillow verifies it as an image (`ImageField`'s own check). -/
structure ImgFile where
  name : List Char
  size : Nat
  content_type : List Char
  isImage : Bool

/-- The 10 MB cap from `WasteAnalysisInputSerializer.validate_image`. -/
def MAX_UPLOAD_BYTES : Nat := 10 * 1024 * 1024

/-- `WasteAnalysisInputSerializer.validate_image` (serializers.py 23–31):
reject files over 10 MB and non-`image/` content types. -/
def validate_image (f : ImgFile) : Bool :=
  if MAX_UPLOAD_BYTES < f.size then false
  else (strL "image/").isPrefixOf f.content_type

/-- The request payload offered to either POST handler. -/
structure AnalysisInput where
  image : Option ImgFile
  state : Option (List Char)

/-- The model's state-code choices. -/
def stateChoices : List (List Char) := INDIAN_STATES.map Prod.fst

/-- `WasteAnalysisInputSerializer(data=...).is_valid()`: both fields
required, the file must verify as an image (`ImageField`), `validate_image`
must pass, and the state must be an enumerated choice (`ChoiceField`). -/
def serializer_is_valid (inp : AnalysisInput) : Bool :=
  match inp.image, inp.state with
  | some f, some st => f.isImage && validate_image f && stateChoices.contains st
  | _, _ => false

/-! ## The two POST handlers (`views.py`) -/

/-- The outcome of `analyzer.analyze_waste_image(...)`.  The handlers below
are stated over an arbitrary such value; the value the repo actually passes
is computed by `analyze_waste_image` further down (after the parsers it
depends on), and the composed pipelines are `WasteAnalysisAPIView_post_gated`
and `WasteAnalysisView_post_gated`. -/
structure AnalysisResult where
  success : Bool
  error : List Char
  raw_response : List Char

/-- Python `dict.get(key, default)` on a parsed JSON object (later bindings
of a duplicated key win, as in a Python dict literal). -/
def dictGet (fields : List (List Char × Json)) (key : List Char) (dflt : Json) : Json :=
  match (fields.filter (fun kv => kv.1 == key)).getLast? with
  | some kv => kv.2
  | none => dflt

/-- `data.get(key, {})` followed by attribute access on the result: a
missing key yields the empty dict, a non-dict value makes the subsequent
`.get` raise `AttributeError` (`none`). -/
def sectionGet (fields : List (List Char × Json)) (key : List Char) :
    Option (List (List Char × Json)) :=
  match dictGet fields key (Json.obj []) with
  | Json.obj fs => some fs
  | _ => none

/-- `dict(choices).get(value, value)`: Django's `get_FOO_display`. -/
def choiceDisplay (choices : List (List Char × List Char)) (v : Json) : Json :=
  match v with
  | Json.str s =>
    match (choices.filter (fun kv => kv.1 == s)).getLast? with
    | some kv => Json.str kv.2
    | none => Json.str s
  | _ => v

/-- `GeminiWasteAnalyzer.get_state_name_from_code` (gemini_service.py 36–38). -/
def get_state_name_from_code (code : List Char) : List Char :=
  match (GEMINI_INDIAN_STATES.filter (fun kv => kv.1 == code)).getLast? with
  | some kv => kv.2
  | none => code

/-- The field-extraction-and-update block shared verbatim by both POST
handlers (`views.py` 202–228 and 312–333): pick the five sections out of the
parsed response with `.get(..., {})` defaults, coerce the confidence with
`float(...)`, write every extracted field and the raw response onto the row.
`none` models an exception escaping to the surrounding handler before
`.save()` is reached (`AttributeError` from `.get` on a non-dict section, or
`float()` raising), in which case the row is never mutated. -/
def applyAnalysis (row : WasteRow) (data : Json) (raw : List Char) : Option WasteRow :=
  match data with
  | Json.obj fields =>
    (sectionGet fields (strL "waste_classification")).bind fun wc =>
    (sectionGet fields (strL "disposal_instructions")).bind fun disposal =>
    (sectionGet fields (strL "risk_assessment")).bind fun risks =>
    (sectionGet fields (strL "safety_measures")).bind fun safety =>
    (sectionGet fields (strL "additional_info")).bind fun additional =>
    (pyFloatOfJson (dictGet wc (strL "confidence") (Json.num ⟨1, 2⟩))).map fun conf =>
      { row with
          predicted_category := dictGet wc (strL "category") (Json.str (strL "GENERAL"))
          confidence_score := some conf
          waste_description := dictGet wc (strL "description") (Json.str [])
          disposal_instructions := dictGet disposal (strL "general_method") (Json.str [])
          state_specific_laws := dictGet disposal (strL "state_specific_laws") (Json.str [])
          authorized_facilities := dictGet disposal (strL "authorized_facilities") (Json.str [])
          health_hazards := dictGet risks (strL "health_hazards") (Json.str [])
          environmental_risks := dictGet risks (strL "environmental_risks") (Json.str [])
          precautions := dictGet safety (strL "precautions") (Json.str [])
          protective_equipment := dictGet safety (strL "protective_equipment") (Json.str [])
          emergency_procedures := dictGet safety (strL "emergency_procedures") (Json.str [])
          recyclability_info := dictGet additional (strL "recyclability") (Json.str [])
          cost_implications := dictGet additional (strL "cost_implications") (Json.str [])
          gemini_raw_response := some raw }
  | _ => none

/-- The JSON body of a 200 response from the API endpoint (`views.py`
231–254; `created_at` is omitted from the embedding, time is not modelled). -/
structure ApiRespData where
  id : Nat
  waste_category : Json
  category_display : Json
  confidence_score : Option PyNum
  state : List Char
  state_display : List Char
  waste_description : Json
  disposal_instructions : Json
  state_specific_laws : Json
  authorized_facilities : Json
  health_hazards : Json
  environmental_risks : Json
  precautions : Json
  protective_equipment : Json
  emergency_procedures : Json
  recyclability_info : Json
  cost_implications : Json
  image_url : List Char

/-- The HTTP outcome of the API handler. -/
inductive ApiOutcome where
  | badRequest
  | serverError (msg : List Char)
  | ok (resp : ApiRespData)

/-- Build the 200 response body from the saved row (`views.py` 231–254). -/
def mkApiResponse (row : WasteRow) (state_code state_name : List Char) : ApiRespData :=
  { id := row.id
    waste_category := row.predicted_category
    category_display := choiceDisplay WASTE_CATEGORIES row.predicted_category
    confidence_score := row.confidence_score.map confidencePercent
    state := state_code
    state_display := state_name
    waste_description := row.waste_description
    disposal_instructions := row.disposal_instructions
    state_specific_laws := row.state_specific_laws
    authorized_facilities := row.authorized_facilities
    health_hazards := row.health_hazards
    environmental_risks := row.environmental_risks
    precautions := row.precautions
    protective_equipment := row.protective_equipment
    emergency_procedures := row.emergency_procedures
    recyclability_info := row.recyclability_info
    cost_implications := row.cost_implications
    image_url := row.image }

/-- `WasteAnalysisAPIView.post` (views.py 144–263).  The persisted state is
the list of rows; a fresh row's id is the next index. -/
def WasteAnalysisAPIView_post (db : List WasteRow) (inp : AnalysisInput)
    (ext : AnalysisResult) : List WasteRow × ApiOutcome :=
  if serializer_is_valid inp then
    match inp.image, inp.state with
    | some f, some st =>
      if ext.success then
        match parse_gemini_response ext.raw_response with
        | some data =>
          match applyAnalysis (createRow db.length f.name st) data ext.raw_response with
          | some row2 =>
            (db ++ [row2],
             ApiOutcome.ok (mkApiResponse row2 st (get_state_name_from_code st)))
          | none =>
            (db ++ [createRow db.length f.name st],
             ApiOutcome.serverError (strL "Analysis failed"))
        | none =>
          (db ++ [createRow db.length f.name st],
           ApiOutcome.serverError (strL "Failed to parse API response as JSON"))
      else (db ++ [createRow db.length f.name st], ApiOutcome.serverError ext.error)
    | _, _ => (db, ApiOutcome.badRequest)
  else (db, ApiOutcome.badRequest)

/-- The outcome of the template-form handler: a redirect to the analyze page
with a flash message, or a redirect to the results page of a row. -/
inductive FormOutcome where
  | redirectAnalyze (flash : List Char)
  | redirectResults (id : Nat)

/-- `WasteAnalysisView.post` (views.py 275–343): the template-form path.  No
serializer runs; the only gate is the truthiness check on the two request
fields (a missing file, or a missing or empty state string). -/
def WasteAnalysisView_post (db : List WasteRow) (image : Option ImgFile)
    (state : Option (List Char)) (ext : AnalysisResult) :
    List WasteRow × FormOutcome :=
  match image, state with
  | some f, some st =>
    if st.isEmpty then
      (db, FormOutcome.redirectAnalyze (strL "Please provide both image and state."))
    else
      if ext.success then
        match parse_gemini_response ext.raw_response with
        | some data =>
          match applyAnalysis (createRow db.length f.name st) data ext.raw_response with
          | some row2 => (db ++ [row2], FormOutcome.redirectResults row2.id)
          | none =>
            (db ++ [createRow db.length f.name st],
             FormOutcome.redirectAnalyze (strL "Analysis failed"))
        | none =>
          (db ++ [createRow db.length f.name st],
           FormOutcome.redirectAnalyze
             (strL "Failed to parse analysis response. Please try again."))
      else
        (db ++ [createRow db.length f.name st],
         FormOutcome.redirectAnalyze (strL "Analysis failed"))
  | _, _ =>
    (db, FormOutcome.redirectAnalyze (strL "Please provide both image and state."))

/-! ## The service-side validation gate (`gemini_service.py`) -/

/-- Python `key in container` for a string key against a parsed JSON value
(gemini_service.py lines 203 and 209): key lookup on a dict, element
equality on a list, substring search on a string; `none` models the
`TypeError` raised on a number, boolean or `None`. -/
def pyInJson (key : List Char) : Json → Option Bool
  | Json.obj fields => some (fields.any (fun kv => kv.1 == key))
  | Json.arr elems =>
    some (elems.any (fun e => match e with
      | Json.str s => s == key
      | _ => false))
  | Json.str s => some (containsSub key s)
  | _ => none

/-- The loop `for key in required_keys: if key not in data: return False`
and the generator `all(k in waste_class for k in [...])` (gemini_service.py
202–205 and 209): stop at the first missing key, abort on the first
`TypeError`. -/
def allKeysIn (keys : List (List Char)) (data : Json) : Option Bool :=
  match keys with
  | [] => some true
  | k :: rest =>
    match pyInJson k data with
    | none => none
    | some false => some false
    | some true => allKeysIn rest data

/-- Python `x.get(key, default)` where `x` is an arbitrary parsed value:
`none` models the `AttributeError` raised when `x` is not a dict
(gemini_service.py 208, 215, 220). -/
def jsonDictGet (data : Json) (key : List Char) (dflt : Json) : Option Json :=
  match data with
  | Json.obj fields => some (dictGet fields key dflt)
  | _ => none

/-- The five required top-level keys (gemini_service.py 193–199). -/
def requiredKeys : List (List Char) :=
  [strL "waste_classification", strL "disposal_instructions",
   strL "risk_assessment", strL "safety_measures", strL "additional_info"]

/-- The seven admissible category literals (gemini_service.py 214). -/
def validCategories : List (List Char) :=
  [strL "MEDICAL", strL "E_WASTE", strL "GENERAL", strL "RECYCLABLE",
   strL "NON_RECYCLABLE", strL "HAZARDOUS", strL "ORGANIC"]

/-- The membership test `waste_class.get('category') not in valid_categories`
(gemini_service.py 215), negated: membership in a list of strings is
equality against each element, and only a string can equal a string. -/
def categoryValid (cat : Json) : Bool :=
  match cat with
  | Json.str cs => validCategories.any (fun s => s == cs)
  | _ => false

/-- The confidence test
`isinstance(confidence, (int, float)) and 0.0 <= confidence <= 1.0`
(gemini_service.py 221): a JSON number passes iff its exact value lies in
the unit interval (the parser always produces a positive power of ten as the
denominator, so the integer comparison is that of the represented value), a
boolean is an `int` in Python with `False = 0` and `True = 1`, both within
the interval, and everything else fails `isinstance`. -/
def confidenceOk (conf : Json) : Bool :=
  match conf with
  | Json.num q => decide (0 ≤ q.num ∧ q.num ≤ (q.den : Int))
  | Json.bool _ => true
  | _ => false

/-- `GeminiWasteAnalyzer._validate_response_structure` (gemini_service.py
191–225).  `none` models an exception escaping the method — a `TypeError`
from `in` on a non-container or an `AttributeError` from `.get` on a
non-dict — which the caller's blanket `except` turns into a generic
failure. -/
def validate_response_structure (data : Json) : Option Bool :=
  match allKeysIn requiredKeys data with
  | none => none
  | some false => some false
  | some true =>
    match jsonDictGet data (strL "waste_classification") (Json.obj []) with
    | none => none
    | some wc =>
      match allKeysIn [strL "category", strL "confidence", strL "description"] wc with
      | none => none
      | some false => some false
      | some true =>
        match jsonDictGet wc (strL "category") Json.null with
        | none => none
        | some cat =>
          if categoryValid cat then
            match jsonDictGet wc (strL "confidence") Json.null with
            | none => none
            | some conf => some (confidenceOk conf)
          else some false

/-- `GeminiWasteAnalyzer.analyze_waste_image` (gemini_service.py 75–143) from
the point the external answer is in hand: `respText` is the answer text of
the vision API, `none` standing for a missing image file, an empty answer,
or any exception raised before parsing — each of which returns a failure
dict carrying no `raw_response` (the embedding keeps the fixed prefix of the
f-string error message).  With an answer the code parses it
(`_parse_gemini_json_response`), validates the structure, and only then
reports success; an exception inside validation is caught by the blanket
`except` on line 138 and again yields a failure without a raw response. -/
def analyze_waste_image (respText : Option (List Char)) : AnalysisResult :=
  match respText with
  | none =>
    { success := false, error := strL "Gemini API error", raw_response := [] }
  | some raw =>
    match parse_gemini_json_response raw with
    | none =>
      { success := false, error := strL "Failed to parse API response as JSON",
        raw_response := raw }
    | some data =>
      match validate_response_structure data with
      | none =>
        { success := false, error := strL "Gemini API error", raw_response := [] }
      | some false =>
        { success := false,
          error := strL "Invalid response structure from Gemini API",
          raw_response := raw }
      | some true => { success := true, error := [], raw_response := raw }

/-- The API pipeline as wired in the repo: `WasteAnalysisAPIView.post`
consuming the result of `analyzer.analyze_waste_image` on the external
answer text, which is the only free input left. -/
def WasteAnalysisAPIView_post_gated (db : List WasteRow) (inp : AnalysisInput)
    (respText : Option (List Char)) : List WasteRow × ApiOutcome :=
  WasteAnalysisAPIView_post db inp (analyze_waste_image respText)

/-- The template-form pipeline as wired in the repo. -/
def WasteAnalysisView_post_gated (db : List WasteRow) (image : Option ImgFile)
    (state : Option (List Char)) (respText : Option (List Char)) :
    List WasteRow × FormOutcome :=
  WasteAnalysisView_post db image state (analyze_waste_image respText)

/-! ## The PDF report generator (`pdf_report.py`) -/

/-- A flowable appended to the reportlab story. -/
inductive PdfElem where
  | para (text : Json)
  | spacer
  | table (rows : List (List Json))
  | image (path : List Char)

/-- Python truthiness of a stored field value. -/
def jsonTruthy : Json → Bool
  | Json.null => false
  | Json.bool b => b
  | Json.num q => !(q.num = 0)
  | Json.str s => !s.isEmpty
  | Json.arr xs => !xs.isEmpty
  | Json.obj fs => !fs.isEmpty

/-- Python `x or default` on a field value. -/
def orDefault (v : Json) (dflt : List Char) : Json :=
  if jsonTruthy v then v else Json.str dflt

/-- Truthiness of the nullable confidence column. -/
def confTruthy : Option PyNum → Bool
  | none => false
  | some q => !(q.num = 0)

/-- `classification.confidence_score * 100`: raises `TypeError` (`none`)
when the column is `None`. -/
def optFloatMul100 : Option PyNum → Option PyNum
  | none => none
  | some q => some ⟨q.num * 100, q.den⟩

/-- `round(classification.confidence_score * 100, 2) if
classification.confidence_score else 0` (pdf_report.py line 242): the guard
keeps the multiplication away from a `None` (or zero) column. -/
def pdfConfidencePercent (conf : Option PyNum) : Option PyNum :=
  if confTruthy conf then (optFloatMul100 conf).map pyRound2
  else some ⟨0, 1⟩

/-- `dict(choices).get(value, value)` on a plain string. -/
def choiceDisplayStr (choices : List (List Char × List Char)) (s : List Char) :
    List Char :=
  match (choices.filter (fun kv => kv.1 == s)).getLast? with
  | some kv => kv.2
  | none => s

/-- `_add_header` (pdf_report.py 153–184): title and report-info table. -/
def add_header (row : WasteRow) : List PdfElem :=
  [PdfElem.para (Json.str (strL "Waste Analysis Report")), PdfElem.spacer,
   PdfElem.table
     [[Json.str (strL "State/Region:"),
       Json.str (choiceDisplayStr INDIAN_STATES row.state)],
      [Json.str (strL "Report ID:"), Json.num ⟨(row.id : Int), 1⟩]],
   PdfElem.spacer]

/-- `_add_waste_image` (pdf_report.py 186–235): included when the row has an
image; internal failures are swallowed by its `try/except`. -/
def add_waste_image (row : WasteRow) : List PdfElem :=
  if row.image.isEmpty then []
  else
    [PdfElem.para (Json.str (strL "Analyzed Waste Image")), PdfElem.spacer,
     PdfElem.table [[Json.arr []]], PdfElem.spacer]

/-- `_add_classification_summary` (pdf_report.py 237–268). -/
def add_classification_summary (row : WasteRow) : Option (List PdfElem) :=
  match pdfConfidencePercent row.confidence_score with
  | some percent =>
    some
      [PdfElem.para (Json.str (strL "Classification Summary")),
       PdfElem.table
         [[Json.str (strL "Waste Category:"),
           choiceDisplay WASTE_CATEGORIES row.predicted_category],
          [Json.str (strL "Confidence Level:"), Json.num percent],
          [Json.str (strL "Description:"),
           orDefault row.waste_description (strL "No description available")]],
       PdfElem.spacer]
  | none => none

/-- One optional labelled paragraph pair: emitted only when the field is
truthy (the `if classification.<field>:` guards). -/
def optionalSection (label : List Char) (v : Json) : List PdfElem :=
  if jsonTruthy v then [PdfElem.para (Json.str label), PdfElem.para v] else []

/-- `_add_disposal_section` (pdf_report.py 270–286). -/
def add_disposal_section (row : WasteRow) : List PdfElem :=
  [PdfElem.para (Json.str (strL "Disposal Instructions"))] ++
  optionalSection (strL "General Disposal Method:") row.disposal_instructions ++
  optionalSection (strL "State-Specific Regulations:") row.state_specific_laws ++
  optionalSection (strL "Authorized Facilities:") row.authorized_facilities ++
  [PdfElem.spacer]

/-- `_add_risk_assessment_section` (pdf_report.py 288–300). -/
def add_risk_assessment_section (row : WasteRow) : List PdfElem :=
  [PdfElem.para (Json.str (strL "Risk Assessment"))] ++
  optionalSection (strL "Health Hazards:") row.health_hazards ++
  optionalSection (strL "Environmental Risks:") row.environmental_risks ++
  [PdfElem.spacer]

/-- `_add_safety_measures_section` (pdf_report.py 302–318). -/
def add_safety_measures_section (row : WasteRow) : List PdfElem :=
  [PdfElem.para (Json.str (strL "Safety Measures"))] ++
  optionalSection (strL "Precautions:") row.precautions ++
  optionalSection (strL "Protective Equipment:") row.protective_equipment ++
  optionalSection (strL "Emergency Procedures:") row.emergency_procedures ++
  [PdfElem.spacer]

/-- `_add_additional_info_section` (pdf_report.py 320–332). -/
def add_additional_info_section (row : WasteRow) : List PdfElem :=
  [PdfElem.para (Json.str (strL "Additional Information"))] ++
  optionalSection (strL "Recyclability Information:") row.recyclability_info ++
  optionalSection (strL "Cost Implications:") row.cost_implications ++
  [PdfElem.spacer]

/-- `_add_footer` (pdf_report.py 334–362): fixed disclaimer and contacts. -/
def add_footer : List PdfElem :=
  [PdfElem.spacer, PdfElem.para (Json.str (strL "Important Disclaimer")),
   PdfElem.para (Json.str (strL "This analysis is generated using AI technology.")),
   PdfElem.para (Json.str (strL "Contact Information")),
   PdfElem.para (Json.str (strL "End of Report"))]

/-- `WasteClassificationPDFGenerator.generate_pdf_report` (pdf_report.py
95–151): build the full story; `none` models an exception escaping
`doc.build` (none of the section builders raises, which is claim C8). -/
def generate_pdf_report (row : WasteRow) : Option (List PdfElem) :=
  match add_classification_summary row with
  | some summary =>
    some (add_header row ++ add_waste_image row ++ summary ++
      add_disposal_section row ++ add_risk_assessment_section row ++
      add_safety_measures_section row ++ add_additional_info_section row ++
      add_footer)
  | none => none

/-! ## Concrete fixtures used by witnesses and counterexamples -/

/-- A small valid upload. -/
def imgOk : ImgFile := ⟨strL "waste.jpg", 2048, strL "image/jpeg", true⟩

/-- An upload one byte over the 10 MB cap. -/
def imgHuge : ImgFile := ⟨strL "big.jpg", 10 * 1024 * 1024 + 1, strL "image/jpeg", true⟩

/-- An upload with a non-image content type. -/
def imgPdf : ImgFile := ⟨strL "doc.pdf", 2048, strL "application/pdf", true⟩

/-- A failed external analysis. -/
def extFail : AnalysisResult := ⟨false, strL "Gemini API error", []⟩

/-- A full well-formed analysis response body. -/
def raw5 : List Char := strL "\x7b\"waste_classification\": \x7b\"category\": \"RECYCLABLE\", \"confidence\": 0.85, \"description\": \"Plastic bottle\"\x7d, \"disposal_instructions\": \x7b\"general_method\": \"Rinse and recycle\", \"state_specific_laws\": \"MH rules\", \"authorized_facilities\": \"MPCB centres\"\x7d, \"risk_assessment\": \x7b\"health_hazards\": \"Low\", \"environmental_risks\": \"Litter\"\x7d, \"safety_measures\": \x7b\"precautions\": \"Gloves\", \"protective_equipment\": \"Not needed\", \"emergency_procedures\": \"Wash hands\"\x7d, \"additional_info\": \x7b\"recyclability\": \"High\", \"cost_implications\": \"Low\"\x7d\x7d"

/-- A successful external analysis carrying `raw5`. -/
def ext5 : AnalysisResult := ⟨true, [], raw5⟩

/-- A valid API request. -/
def inp5 : AnalysisInput := ⟨some imgOk, some (strL "MH")⟩

/-- A response whose confidence is out of the nominal 0–1 range. -/
def raw6 : List Char :=
  strL "\x7b\"waste_classification\": \x7b\"confidence\": 1.5\x7d\x7d"

/-- A successful external analysis carrying `raw6`. -/
def ext6 : AnalysisResult := ⟨true, [], raw6⟩

/-- The row persisted by the successful `inp5`/`ext5` interaction. -/
def row5 : WasteRow :=
  { createRow 0 (strL "waste.jpg") (strL "MH") with
    predicted_category := Json.str (strL "RECYCLABLE")
    confidence_score := some ⟨85, 100⟩
    waste_description := Json.str (strL "Plastic bottle")
    disposal_instructions := Json.str (strL "Rinse and recycle")
    state_specific_laws := Json.str (strL "MH rules")
    authorized_facilities := Json.str (strL "MPCB centres")
    health_hazards := Json.str (strL "Low")
    environmental_risks := Json.str (strL "Litter")
    precautions := Json.str (strL "Gloves")
    protective_equipment := Json.str (strL "Not needed")
    emergency_procedures := Json.str (strL "Wash hands")
    recyclability_info := Json.str (strL "High")
    cost_implications := Json.str (strL "Low")
    gemini_raw_response := some raw5 }

/-- The 200 response body of that interaction. -/
def resp5 : ApiRespData :=
  mkApiResponse row5 (strL "MH") (get_state_name_from_code (strL "MH"))

/-- Project the 200 body out of an API outcome. -/
def apiRespOf : ApiOutcome → Option ApiRespData
  | ApiOutcome.ok resp => some resp
  | _ => none

set_option maxRecDepth 100000 in

/-- The parsed body of `raw6`. -/
def data6 : Json :=
  Json.obj [(strL "waste_classification",
    Json.obj [(strL "confidence", Json.num ⟨15, 10⟩)])]

/-- The row persisted by a successful interaction carrying `raw6`. -/
def row6 : WasteRow :=
  { createRow 0 (strL "waste.jpg") (strL "MH") with
    predicted_category := Json.str (strL "GENERAL")
    confidence_score := some ⟨15, 10⟩
    gemini_raw_response := some raw6 }

/-! ## Helper lemmas -/

/-- The update block rewrites only classification fields: id, image and
state survive it. -/
theorem applyAnalysis_preserves {row : WasteRow} {data : Json} {raw : List Char}
    {row2 : WasteRow} (h : applyAnalysis row data raw = some row2) :
    row2.id = row.id ∧ row2.image = row.image ∧ row2.state = row.state := by
  unfold applyAnalysis at h
  cases data <;> try exact Option.noConfusion h
  case obj fields =>
    simp only [Option.bind_eq_some, Option.map_eq_some'] at h
    obtain ⟨wc, -, disposal, -, risks, -, safety, -, additional, -, conf, -, h⟩ := h
    subst h
    exact ⟨rfl, rfl, rfl⟩


/-! ## Claim C7 — the state enumeration -/

/-- C7 (counterexample): the claim states that `INDIAN_STATES` contains
exactly 36 entries, but the model's list has 37 (it lists 28 states and 9
union-territory codes, keeping `DH` and `DD` separate and adding `LA`). -/
theorem C7_counterexample : INDIAN_STATES.length = 37 ∧ INDIAN_STATES.length ≠ 36 := by
  decide

/-- C7 (amended): the model's `INDIAN_STATES` choices list contains exactly
37 entries, each with a two-character code. -/
theorem C7_state_choices :
    INDIAN_STATES.length = 37 ∧
    INDIAN_STATES.all (fun p => p.1.length == 2) = true := by
  decide

/-! ## Claim C8 — PDF generation is total -/

/-- C8: for every classification row — any subset of the optional text
fields blank (or indeed holding any value) and `confidence_score` possibly
`None` — `generate_pdf_report` completes and produces a story: the
`if classification.confidence_score` guard keeps the only fallible
computation away from a `None` column, and every other section builder is
total. -/
theorem C8_pdf_generation_total (row : WasteRow) :
    (generate_pdf_report row).isSome = true := by
  unfold generate_pdf_report add_classification_summary pdfConfidencePercent
  cases h : row.confidence_score with
  | none => simp [confTruthy]
  | some q =>
    by_cases hq : q.num = 0 <;>
      simp [confTruthy, hq, optFloatMul100]

/-- The template-form handler creates a row for every provided file and
non-empty state string, whatever the file's size or content type and whether
or not the state is an enumerated code. -/
theorem form_post_creates (db : List WasteRow) (f : ImgFile) (st : List Char)
    (ext : AnalysisResult) (hst : st ≠ []) :
    ∃ r, (WasteAnalysisView_post db (some f) (some st) ext).1 = db ++ [r] ∧
      r.image = f.name ∧ r.state = st := by
  obtain ⟨a, t, rfl⟩ : ∃ a t, st = a :: t := by
    cases st with
    | nil => exact absurd rfl hst
    | cons a t => exact ⟨a, t, rfl⟩
  simp only [WasteAnalysisView_post, List.isEmpty_cons, Bool.false_eq_true, if_false]
  cases hs : ext.success with
  | false => exact ⟨createRow db.length f.name (a :: t), by simp, rfl, rfl⟩
  | true =>
    cases hp : parse_gemini_response ext.raw_response with
    | none => exact ⟨createRow db.length f.name (a :: t), by simp, rfl, rfl⟩
    | some data =>
      cases ha : applyAnalysis (createRow db.length f.name (a :: t)) data ext.raw_response with
      | none => exact ⟨createRow db.length f.name (a :: t), by simp [ha], rfl, rfl⟩
      | some row2 =>
        obtain ⟨-, hi, hstate⟩ := applyAnalysis_preserves ha
        exact ⟨row2, by simp [ha], hi, hstate⟩

/-! ## Claim C3 — upload validation on the two paths -/

/-- C3: an API upload whose file exceeds 10 MB or whose content type does
not start with `image/` fails serializer validation, so the endpoint answers
HTTP 400 and the database is untouched; the template-form path performs no
size or content-type check and creates a row for any provided file. -/
theorem C3_upload_validation :
    (∀ db inp ext f, inp.image = some f →
        MAX_UPLOAD_BYTES < f.size ∨ (strL "image/").isPrefixOf f.content_type = false →
        WasteAnalysisAPIView_post db inp ext = (db, ApiOutcome.badRequest)) ∧
    (∀ db f st ext, st ≠ [] → ∃ r,
        (WasteAnalysisView_post db (some f) (some st) ext).1 = db ++ [r] ∧
        r.image = f.name ∧ r.state = st) := by
  constructor
  · intro db inp ext f hf hbad
    have hv : serializer_is_valid inp = false := by
      unfold serializer_is_valid
      rw [hf]
      cases hst : inp.state with
      | none => rfl
      | some st =>
        have : validate_image f = false := by
          unfold validate_image
          split
          · rfl
          next hnot =>
            rcases hbad with hbig | hct
            · exact absurd hbig hnot
            · exact hct
        simp [this]
    unfold WasteAnalysisAPIView_post
    rw [hv]
    simp
  · exact fun db f st ext hst => form_post_creates db f st ext hst

/-- C3 (witness): a 10 MB + 1 upload and a PDF upload are both rejected with
HTTP 400 by the API path, while the form path happily persists the huge one. -/
theorem C3_witness :
    WasteAnalysisAPIView_post [] ⟨some imgHuge, some (strL "MH")⟩ ext5 =
      ([], ApiOutcome.badRequest) ∧
    WasteAnalysisAPIView_post [] ⟨some imgPdf, some (strL "MH")⟩ ext5 =
      ([], ApiOutcome.badRequest) ∧
    ∃ r, (WasteAnalysisView_post [] (some imgHuge) (some (strL "MH")) ext5).1 = [] ++ [r] ∧
      r.image = imgHuge.name ∧ r.state = strL "MH" := by
  refine ⟨?_, ?_, ?_⟩
  · exact C3_upload_validation.1 [] _ ext5 imgHuge rfl (Or.inl (by decide))
  · exact C3_upload_validation.1 [] _ ext5 imgPdf rfl (Or.inr (by decide))
  · exact C3_upload_validation.2 [] imgHuge (strL "MH") ext5 (by decide)

/-! ## Claim C10 — the form path persists any state string -/

/-- C10: the template-form handler checks only the truthiness of the two
request fields: any provided file together with any non-empty state string —
enumerated or not — leads to a created row persisting that state string
verbatim, while a missing file, a missing state, or an empty state string is
rejected with a flash-message redirect and no row. -/
theorem C10_form_state_not_validated :
    (∀ db f st ext, st ≠ [] → ∃ r,
        (WasteAnalysisView_post db (some f) (some st) ext).1 = db ++ [r] ∧
        r.state = st) ∧
    (∀ db st ext, WasteAnalysisView_post db none st ext =
        (db, FormOutcome.redirectAnalyze (strL "Please provide both image and state."))) ∧
    (∀ db f ext, WasteAnalysisView_post db (some f) none ext =
        (db, FormOutcome.redirectAnalyze (strL "Please provide both image and state."))) ∧
    (∀ db f ext, WasteAnalysisView_post db (some f) (some []) ext =
        (db, FormOutcome.redirectAnalyze (strL "Please provide both image and state."))) := by
  refine ⟨?_, ?_, ?_, ?_⟩
  · intro db f st ext hst
    obtain ⟨r, h1, -, h3⟩ := form_post_creates db f st ext hst
    exact ⟨r, h1, h3⟩
  · intro db st ext
    cases st <;> rfl
  · intro db f ext
    rfl
  · intro db f ext
    rfl

/-- C10 (witness): a state string that is not one of the 37 enumerated codes
is persisted as given by the form path; a missing or empty field flashes. -/
theorem C10_witness :
    (∃ r, (WasteAnalysisView_post [] (some imgOk) (some (strL "ZZ")) ext5).1 = [] ++ [r] ∧
       r.state = strL "ZZ") ∧
    WasteAnalysisView_post [] none (some (strL "MH")) extFail =
      ([], FormOutcome.redirectAnalyze (strL "Please provide both image and state.")) ∧
    WasteAnalysisView_post [] (some imgOk) (some []) extFail =
      ([], FormOutcome.redirectAnalyze (strL "Please provide both image and state.")) := by
  refine ⟨?_, ?_, ?_⟩
  · exact C10_form_state_not_validated.1 [] imgOk (strL "ZZ") ext5 (by decide)
  · exact C10_form_state_not_validated.2.1 [] (some (strL "MH")) extFail
  · exact C10_form_state_not_validated.2.2.2 [] imgOk extFail

/-! ## The validation gate at work (claim C6 remains unresolved)

The handlers store whatever confidence the view-side re-parse produces, but
the composed pipeline only reports success after
`_validate_response_structure` has accepted the service-parsed body, and
that validator bounds the confidence it inspects to the unit interval; the
out-of-range response `raw6` is rejected by the full pipeline. -/

/-- A successful `analyze_waste_image` outcome certifies that the answer
text parsed and that the parsed body passed the structure validator, and it
carries that very answer text as its raw response. -/
theorem analyze_success_validated {respText : Option (List Char)}
    (h : (analyze_waste_image respText).success = true) :
    ∃ raw data, respText = some raw ∧
      parse_gemini_json_response raw = some data ∧
      validate_response_structure data = some true ∧
      (analyze_waste_image respText).raw_response = raw := by
  rcases respText with _ | raw
  · simp [analyze_waste_image] at h
  · rcases hp : parse_gemini_json_response raw with _ | data
    · simp [analyze_waste_image, hp] at h
    · rcases hval : validate_response_structure data with _ | b
      · simp [analyze_waste_image, hp, hval] at h
      · rcases b with _ | _
        · simp [analyze_waste_image, hp, hval] at h
        · exact ⟨raw, data, rfl, hp, hval, by
            simp [analyze_waste_image, hp, hval]⟩

/-- When the validator accepts a body whose `waste_classification` section
is an object carrying a numeric `confidence`, that number lies within
0.0–1.0 (stated on the exact fraction: numerator between 0 and the
denominator). -/
theorem validate_true_confidence_in_unit
    {fields wfields : List (List Char × Json)} {q : PyNum}
    (hwc : dictGet fields (strL "waste_classification") (Json.obj []) =
      Json.obj wfields)
    (hconf : dictGet wfields (strL "confidence") Json.null = Json.num q)
    (hv : validate_response_structure (Json.obj fields) = some true) :
    0 ≤ q.num ∧ q.num ≤ (q.den : Int) := by
  unfold validate_response_structure at hv
  rcases h1 : allKeysIn requiredKeys (Json.obj fields) with _ | b1 <;>
    rw [h1] at hv
  · simp at hv
  rcases b1 with _ | _
  · simp at hv
  simp only [jsonDictGet, hwc] at hv
  rcases h2 : allKeysIn [strL "category", strL "confidence", strL "description"]
      (Json.obj wfields) with _ | b2 <;> rw [h2] at hv
  · simp at hv
  rcases b2 with _ | _
  · simp at hv
  simp only [jsonDictGet, hconf, confidenceOk] at hv
  by_cases hc : categoryValid (dictGet wfields (strL "category") Json.null) = true
  · rw [if_pos hc] at hv
    exact of_decide_eq_true (Option.some.inj hv)
  · rw [if_neg hc] at hv
    simp at hv

/-- The integer comparison inside `confidenceOk` is the comparison of the
represented rational value whenever the denominator is positive (which holds
for every number `json.loads` produces: `mkNumber` always returns a power of
ten). -/
theorem confidenceOk_num_toRat {q : PyNum} (hden : 0 < q.den) :
    confidenceOk (Json.num q) = true ↔ 0 ≤ q.toRat ∧ q.toRat ≤ 1 := by
  simp only [confidenceOk, decide_eq_true_eq, PyNum.toRat]
  have hd : (0 : ℚ) < (q.den : ℚ) := by exact_mod_cast hden
  rw [le_div_iff hd, zero_mul, div_le_one hd]
  constructor
  · rintro ⟨h1, h2⟩
    exact ⟨by exact_mod_cast h1, by exact_mod_cast h2⟩
  · rintro ⟨h1, h2⟩
    exact ⟨by exact_mod_cast h1, by exact_mod_cast h2⟩

set_option maxRecDepth 100000 in

/-- The full API pipeline rejects the out-of-range response `raw6` (its body
is missing four required sections, so the validator answers `false` before
the confidence is even inspected): the endpoint answers 500 with the
structure error and only the blank row is persisted. -/
theorem gated_api_rejects_bad_structure :
    WasteAnalysisAPIView_post_gated [] inp5 (some raw6) =
      ([createRow 0 (strL "waste.jpg") (strL "MH")],
        ApiOutcome.serverError (strL "Invalid response structure from Gemini API")) ∧
    validate_response_structure data6 = some false ∧
    classificationFieldsEmpty (createRow 0 (strL "waste.jpg") (strL "MH")) :=
  ⟨rfl, rfl, rfl, rfl, rfl, rfl, rfl, rfl, rfl, rfl, rfl, rfl, rfl, rfl, rfl, rfl⟩

set_option maxRecDepth 100000 in

/-- The full form pipeline likewise rejects `raw6`, keeping the blank row. -/
theorem gated_form_rejects_bad_structure :
    WasteAnalysisView_post_gated [] (some imgOk) (some (strL "MH")) (some raw6) =
      ([createRow 0 (strL "waste.jpg") (strL "MH")],
        FormOutcome.redirectAnalyze (strL "Analysis failed")) := rfl

set_option maxRecDepth 100000 in

/-- The full API pipeline on the well-formed response `raw5` computes
exactly the external result `ext5` the approved interaction theorems are
stated over, and completes the successful round trip. -/
theorem gated_api_accepts_valid :
    analyze_waste_image (some raw5) = ext5 ∧
    WasteAnalysisAPIView_post_gated [] inp5 (some raw5) =
      ([row5], ApiOutcome.ok resp5) :=
  ⟨rfl, rfl⟩

/-- C8 (witness): the generator succeeds on a wholly blank classification. -/
theorem C8_witness :
    (generate_pdf_report (createRow 0 (strL "waste.jpg") (strL "MH"))).isSome = true :=
  C8_pdf_generation_total (createRow 0 (strL "waste.jpg") (strL "MH"))

/-! ## Claim C5 — response fields versus persisted fields -/

/-- C5 (counterexample): in a successful API interaction the persisted
confidence is 0.85 while the response's `confidence_score` field carries
`round(0.85 * 100, 2) = 85.0` — the response value is a percentage, not the
value persisted on the row, so the fields do not all round-trip equal. -/
theorem C5_counterexample :
    WasteAnalysisAPIView_post [] inp5 ext5 = ([row5], ApiOutcome.ok resp5) ∧
    row5.confidence_score = some ⟨85, 100⟩ ∧
    resp5.confidence_score = some ⟨8500, 100⟩ ∧
    PyNum.toRat ⟨8500, 100⟩ ≠ PyNum.toRat ⟨85, 100⟩ := by
  refine ⟨by rfl, by rfl, by rfl, ?_⟩
  norm_num [PyNum.toRat]

/-- C5 (amended): for every successful analysis via the API endpoint, all
extracted fields are persisted on the row and every field of the 200
response equals the persisted value — except `confidence_score`, which is
returned as the persisted value times 100, rounded to two decimals. -/
theorem C5_response_roundtrip :
    ∀ db inp ext db2 resp,
      WasteAnalysisAPIView_post db inp ext = (db2, ApiOutcome.ok resp) →
      ∃ row, row ∈ db2 ∧
        resp.id = row.id ∧
        resp.waste_category = row.predicted_category ∧
        resp.waste_description = row.waste_description ∧
        resp.disposal_instructions = row.disposal_instructions ∧
        resp.state_specific_laws = row.state_specific_laws ∧
        resp.authorized_facilities = row.authorized_facilities ∧
        resp.health_hazards = row.health_hazards ∧
        resp.environmental_risks = row.environmental_risks ∧
        resp.precautions = row.precautions ∧
        resp.protective_equipment = row.protective_equipment ∧
        resp.emergency_procedures = row.emergency_procedures ∧
        resp.recyclability_info = row.recyclability_info ∧
        resp.cost_implications = row.cost_implications ∧
        resp.image_url = row.image ∧
        resp.state = row.state ∧
        resp.confidence_score = row.confidence_score.map confidencePercent := by
  intro db inp ext db2 resp h
  unfold WasteAnalysisAPIView_post at h
  split at h
  case isFalse => exact absurd (congrArg Prod.snd h) (by simp)
  case isTrue hv =>
    split at h
    case h_2 => exact absurd (congrArg Prod.snd h) (by simp)
    case h_1 f st himg hstate =>
      split at h
      case isFalse => exact absurd (congrArg Prod.snd h) (by simp)
      case isTrue hs =>
        split at h
        case h_2 => exact absurd (congrArg Prod.snd h) (by simp)
        case h_1 data hp =>
          split at h
          case h_2 => exact absurd (congrArg Prod.snd h) (by simp)
          case h_1 row2 ha =>
            injection h with hdb hresp
            obtain ⟨-, -, hstate2⟩ := applyAnalysis_preserves ha
            refine ⟨row2, ?_, ?_⟩
            · rw [← hdb]; simp
            · cases hresp
              refine ⟨rfl, rfl, rfl, rfl, rfl, rfl, rfl, rfl, rfl, rfl, rfl, rfl, rfl,
                rfl, ?_, rfl⟩
              exact hstate2.symm

/-- C5 (witness): the round-trip relation instantiated on the concrete
successful interaction `inp5`/`ext5`. -/
theorem C5_witness :
    ∃ row, row ∈ [row5] ∧
      resp5.id = row.id ∧
      resp5.waste_category = row.predicted_category ∧
      resp5.waste_description = row.waste_description ∧
      resp5.disposal_instructions = row.disposal_instructions ∧
      resp5.state_specific_laws = row.state_specific_laws ∧
      resp5.authorized_facilities = row.authorized_facilities ∧
      resp5.health_hazards = row.health_hazards ∧
      resp5.environmental_risks = row.environmental_risks ∧
      resp5.precautions = row.precautions ∧
      resp5.protective_equipment = row.protective_equipment ∧
      resp5.emergency_procedures = row.emergency_procedures ∧
      resp5.recyclability_info = row.recyclability_info ∧
      resp5.cost_implications = row.cost_implications ∧
      resp5.image_url = row.image ∧
      resp5.state = row.state ∧
      resp5.confidence_score = row.confidence_score.map confidencePercent :=
  C5_response_roundtrip [] inp5 ext5 [row5] resp5 (by rfl)

/-! ## Claim C4 — row lifecycle -/

/-- C4: every row is created holding only image and state (classification
fields blank); both handlers only ever append to the database — existing
rows are never deleted or rewritten; on external-API failure or JSON-parse
failure the created row stays persisted with its classification fields still
empty; and the one mutation happens exactly when the external call succeeds
and its body parses and extracts. -/
theorem C4_row_lifecycle :
    (∀ db inp ext, ∃ tail, tail.length ≤ 1 ∧
        (WasteAnalysisAPIView_post db inp ext).1 = db ++ tail) ∧
    (∀ db image state ext, ∃ tail, tail.length ≤ 1 ∧
        (WasteAnalysisView_post db image state ext).1 = db ++ tail) ∧
    (∀ id image state, classificationFieldsEmpty (createRow id image state)) ∧
    (∀ db inp ext f st, inp.image = some f → inp.state = some st →
        serializer_is_valid inp = true →
        ext.success = false ∨ parse_gemini_response ext.raw_response = none →
        (WasteAnalysisAPIView_post db inp ext).1 =
          db ++ [createRow db.length f.name st]) ∧
    (∀ db inp ext f st data row2, inp.image = some f → inp.state = some st →
        serializer_is_valid inp = true → ext.success = true →
        parse_gemini_response ext.raw_response = some data →
        applyAnalysis (createRow db.length f.name st) data ext.raw_response = some row2 →
        (WasteAnalysisAPIView_post db inp ext).1 = db ++ [row2] ∧
        row2.id = db.length ∧ row2.image = f.name ∧ row2.state = st) ∧
    (∀ db f st ext, st ≠ [] →
        ext.success = false ∨ parse_gemini_response ext.raw_response = none →
        (WasteAnalysisView_post db (some f) (some st) ext).1 =
          db ++ [createRow db.length f.name st]) ∧
    (∀ db f st ext data row2, st ≠ [] → ext.success = true →
        parse_gemini_response ext.raw_response = some data →
        applyAnalysis (createRow db.length f.name st) data ext.raw_response = some row2 →
        (WasteAnalysisView_post db (some f) (some st) ext).1 = db ++ [row2] ∧
        row2.id = db.length ∧ row2.image = f.name ∧ row2.state = st) := by
  have hemp : ∀ st : List Char, st ≠ [] → st.isEmpty = false := by
    intro st h
    cases st with
    | nil => exact absurd rfl h
    | cons a t => rfl
  refine ⟨?_, ?_, ?_, ?_, ?_, ?_, ?_⟩
  · intro db inp ext
    unfold WasteAnalysisAPIView_post
    split
    · split
      · split
        · split
          · split
            · exact ⟨_, by simp, rfl⟩
            · exact ⟨_, by simp, rfl⟩
          · exact ⟨_, by simp, rfl⟩
        · exact ⟨_, by simp, rfl⟩
      · exact ⟨[], by simp, (List.append_nil db).symm⟩
    · exact ⟨[], by simp, (List.append_nil db).symm⟩
  · intro db image state ext
    unfold WasteAnalysisView_post
    split
    · split
      · exact ⟨[], by simp, (List.append_nil db).symm⟩
      · split
        · split
          · split
            · exact ⟨_, by simp, rfl⟩
            · exact ⟨_, by simp, rfl⟩
          · exact ⟨_, by simp, rfl⟩
        · exact ⟨_, by simp, rfl⟩
    · exact ⟨[], by simp, (List.append_nil db).symm⟩
  · intro id image state
    exact ⟨rfl, rfl, rfl, rfl, rfl, rfl, rfl, rfl, rfl, rfl, rfl, rfl, rfl, rfl⟩
  · intro db inp ext f st h1 h2 hv hor
    simp only [WasteAnalysisAPIView_post, hv, h1, h2, if_true]
    rcases hor with hs | hp
    · simp only [hs, Bool.false_eq_true, if_false]
    · cases hs2 : ext.success with
      | false => simp only [hs2, Bool.false_eq_true, if_false]
      | true => simp only [hs2, if_true, hp]
  · intro db inp ext f st data row2 h1 h2 hv hs hp ha
    simp only [WasteAnalysisAPIView_post, hv, h1, h2, if_true, hs, hp, ha]
    obtain ⟨hid, hi, hstate⟩ := applyAnalysis_preserves ha
    exact ⟨trivial, hid, hi, hstate⟩
  · intro db f st ext hst hor
    simp only [WasteAnalysisView_post, hemp st hst, Bool.false_eq_true, if_false]
    rcases hor with hs | hp
    · simp only [hs, Bool.false_eq_true, if_false]
    · cases hs2 : ext.success with
      | false => simp only [hs2, Bool.false_eq_true, if_false]
      | true => simp only [hs2, if_true, hp]
  · intro db f st ext data row2 hst hs hp ha
    simp only [WasteAnalysisView_post, hemp st hst, Bool.false_eq_true, if_false,
      hs, hp, ha, if_true]
    obtain ⟨hid, hi, hstate⟩ := applyAnalysis_preserves ha
    exact ⟨trivial, hid, hi, hstate⟩

/-- C4 (witness): the lifecycle facts instantiated on concrete requests —
a successful run, a failed external call on each path (row kept empty), and
a successful update on each path. -/
theorem C4_witness :
    (∃ tail, tail.length ≤ 1 ∧ (WasteAnalysisAPIView_post [] inp5 ext5).1 = [] ++ tail) ∧
    (∃ tail, tail.length ≤ 1 ∧
       (WasteAnalysisView_post [] (some imgOk) (some (strL "MH")) ext5).1 = [] ++ tail) ∧
    classificationFieldsEmpty (createRow 0 (strL "a.jpg") (strL "MH")) ∧
    (WasteAnalysisAPIView_post [] inp5 extFail).1 =
      [] ++ [createRow 0 imgOk.name (strL "MH")] ∧
    ((WasteAnalysisAPIView_post [] inp5 ext6).1 = [] ++ [row6] ∧
      row6.id = 0 ∧ row6.image = imgOk.name ∧ row6.state = strL "MH") ∧
    (WasteAnalysisView_post [] (some imgOk) (some (strL "MH")) extFail).1 =
      [] ++ [createRow 0 imgOk.name (strL "MH")] ∧
    ((WasteAnalysisView_post [] (some imgOk) (some (strL "MH")) ext6).1 = [] ++ [row6] ∧
      row6.id = 0 ∧ row6.image = imgOk.name ∧ row6.state = strL "MH") := by
  refine ⟨C4_row_lifecycle.1 [] inp5 ext5,
    C4_row_lifecycle.2.1 [] (some imgOk) (some (strL "MH")) ext5,
    C4_row_lifecycle.2.2.1 0 (strL "a.jpg") (strL "MH"), ?_, ?_, ?_, ?_⟩
  · exact C4_row_lifecycle.2.2.2.1 [] inp5 extFail imgOk (strL "MH")
      rfl rfl (by rfl) (Or.inl rfl)
  · exact C4_row_lifecycle.2.2.2.2.1 [] inp5 ext6 imgOk (strL "MH") data6 row6
      rfl rfl (by rfl) rfl (by rfl) (by rfl)
  · exact C4_row_lifecycle.2.2.2.2.2.1 [] imgOk (strL "MH") extFail
      (by decide) (Or.inl rfl)
  · exact C4_row_lifecycle.2.2.2.2.2.2 [] imgOk (strL "MH") ext6 data6 row6
      (by decide) rfl (by rfl) (by rfl)

/-! ## String lemmas: `pyStrip` -/

theorem pyStrip_eq_rdrop (cs : List Char) :
    pyStrip cs = (cs.dropWhile isPyWs).rdropWhile isPyWs := rfl

theorem head_dropWhile_not {p : Char → Bool} {l : List Char} {a : Char} {t : List Char}
    (h : l.dropWhile p = a :: t) : p a = false := by
  induction l with
  | nil => cases h
  | cons x xs ih =>
    rw [List.dropWhile_cons] at h
    cases hx : p x with
    | true => rw [hx] at h; simp at h; exact ih h
    | false =>
      rw [hx] at h
      simp at h
      obtain ⟨rfl, -⟩ := h
      exact hx

theorem pyStrip_head_not_ws {cs : List Char} {c : Char} {t : List Char}
    (h : pyStrip cs = c :: t) : isPyWs c = false := by
  rw [pyStrip_eq_rdrop] at h
  obtain ⟨u, hu⟩ := List.rdropWhile_prefix isPyWs (cs.dropWhile isPyWs)
  rw [h] at hu
  exact head_dropWhile_not hu.symm

theorem pyStrip_last_not_ws {cs : List Char} {c : Char}
    (h : (pyStrip cs).getLast? = some c) : isPyWs c = false := by
  rw [pyStrip_eq_rdrop] at h
  have hne : (cs.dropWhile isPyWs).rdropWhile isPyWs ≠ [] := by
    intro hnil; rw [hnil] at h; cases h
  have hlast := List.rdropWhile_last_not isPyWs (cs.dropWhile isPyWs) hne
  rw [List.getLast?_eq_getLast _ hne] at h
  cases h
  simpa using hlast

theorem pyStrip_eq_self {cs : List Char}
    (h1 : ∀ c, cs.head? = some c → isPyWs c = false)
    (h2 : ∀ c, cs.getLast? = some c → isPyWs c = false) : pyStrip cs = cs := by
  rw [pyStrip_eq_rdrop]
  have hd : cs.dropWhile isPyWs = cs := by
    cases cs with
    | nil => rfl
    | cons a t =>
      rw [List.dropWhile_cons, if_neg]
      simp [h1 a rfl]
  rw [hd]
  rw [List.rdropWhile_eq_self_iff]
  intro hne
  have := h2 (cs.getLast hne) (List.getLast?_eq_getLast _ hne)
  simp [this]

theorem pyStrip_idem (cs : List Char) : pyStrip (pyStrip cs) = pyStrip cs := by
  apply pyStrip_eq_self
  · intro c hc
    cases h : pyStrip cs with
    | nil => rw [h] at hc; cases hc
    | cons a t =>
      rw [h] at hc
      cases hc
      exact pyStrip_head_not_ws h
  · intro c hc
    exact pyStrip_last_not_ws hc

theorem pyStrip_decomp (cs : List Char) :
    ∃ w1 w2, cs = w1 ++ pyStrip cs ++ w2 ∧
      (∀ c ∈ w1, isPyWs c = true) ∧ (∀ c ∈ w2, isPyWs c = true) := by
  refine ⟨cs.takeWhile isPyWs, (cs.dropWhile isPyWs).rtakeWhile isPyWs, ?_, ?_, ?_⟩
  · rw [pyStrip_eq_rdrop]
    have h1 : cs = cs.takeWhile isPyWs ++ cs.dropWhile isPyWs :=
      (List.takeWhile_append_dropWhile isPyWs cs).symm
    have h2 : cs.dropWhile isPyWs =
        (cs.dropWhile isPyWs).rdropWhile isPyWs ++
          (cs.dropWhile isPyWs).rtakeWhile isPyWs := by
      conv_lhs => rw [← List.reverse_reverse (cs.dropWhile isPyWs),
        ← List.takeWhile_append_dropWhile isPyWs (cs.dropWhile isPyWs).reverse]
      rw [List.reverse_append]
      rfl
    rw [List.append_assoc]
    rw [← h2]
    exact h1
  · exact fun c hc => List.mem_takeWhile_imp hc
  · exact fun c hc => List.mem_rtakeWhile_imp hc

theorem dropWhile_append_of_forall {w cs : List Char} {p : Char → Bool}
    (hw : ∀ c ∈ w, p c = true) :
    (w ++ cs).dropWhile p = cs.dropWhile p := by
  induction w with
  | nil => rfl
  | cons a t ih =>
    rw [List.cons_append, List.dropWhile_cons, if_pos (hw a (by simp))]
    exact ih fun c hc => hw c (by simp [hc])

theorem pyStrip_append_ws_left {w cs : List Char}
    (hw : ∀ c ∈ w, isPyWs c = true) : pyStrip (w ++ cs) = pyStrip cs := by
  rw [pyStrip_eq_rdrop, pyStrip_eq_rdrop, dropWhile_append_of_forall hw]

theorem rdropWhile_append_of_forall {w cs : List Char} {p : Char → Bool}
    (hw : ∀ c ∈ w, p c = true) :
    (cs ++ w).rdropWhile p = cs.rdropWhile p := by
  unfold List.rdropWhile
  rw [List.reverse_append, dropWhile_append_of_forall (by simpa using hw)]

theorem pyStrip_append_ws_right {w cs : List Char}
    (hw : ∀ c ∈ w, isPyWs c = true) : pyStrip (cs ++ w) = pyStrip cs := by
  rw [pyStrip_eq_rdrop, pyStrip_eq_rdrop]
  cases h : cs.dropWhile isPyWs with
  | nil =>
    have hcs : ∀ c ∈ cs, isPyWs c = true := List.dropWhile_eq_nil_iff.mp h
    rw [dropWhile_append_of_forall hcs, List.dropWhile_eq_nil_iff.mpr hw]
  | cons a t =>
    have hsplit : cs = cs.takeWhile isPyWs ++ (a :: t) := by
      rw [← h]; exact (List.takeWhile_append_dropWhile isPyWs cs).symm
    have hna : isPyWs a = false := head_dropWhile_not h
    have hdw : (cs ++ w).dropWhile isPyWs = (a :: t) ++ w := by
      conv_lhs => rw [hsplit]
      rw [List.append_assoc,
        dropWhile_append_of_forall (fun c hc => List.mem_takeWhile_imp hc),
        List.cons_append, List.dropWhile_cons, if_neg (by simp [hna]),
        ← List.cons_append]
    rw [hdw, rdropWhile_append_of_forall hw]

theorem pyStrip_sandwich {w1 w2 body : List Char}
    (h1 : ∀ c ∈ w1, isPyWs c = true) (h2 : ∀ c ∈ w2, isPyWs c = true)
    (hb : pyStrip body = body) : pyStrip (w1 ++ body ++ w2) = body := by
  rw [List.append_assoc, pyStrip_append_ws_left h1, pyStrip_append_ws_right h2, hb]

/-! ## String lemmas: substring search -/

theorem occursAt_zero (pat cs : List Char) : occursAt pat cs 0 = pat.isPrefixOf cs := rfl

theorem occursAt_succ (pat : List Char) (c : Char) (t : List Char) (j : Nat) :
    occursAt pat (c :: t) (j + 1) = occursAt pat t j := rfl

theorem occursAt_nil {pat : List Char} (hp : pat ≠ []) (j : Nat) :
    occursAt pat [] j = false := by
  unfold occursAt
  rw [List.drop_nil]
  cases pat with
  | nil => exact absurd rfl hp
  | cons a b => rfl

theorem occursAt_eq_true_iff {pat cs : List Char} {j : Nat} :
    occursAt pat cs j = true ↔ ∃ r, cs.drop j = pat ++ r := by
  unfold occursAt
  rw [List.isPrefixOf_iff_prefix]
  constructor
  · rintro ⟨r, hr⟩; exact ⟨r, hr.symm⟩
  · rintro ⟨r, hr⟩; exact ⟨r, hr.symm⟩

theorem occursAt_length_le {pat cs : List Char} {j : Nat} (hp : pat ≠ [])
    (h : occursAt pat cs j = true) : j + pat.length ≤ cs.length := by
  obtain ⟨r, hr⟩ := occursAt_eq_true_iff.mp h
  have hlen : cs.length - j = pat.length + r.length := by
    rw [← List.length_drop, hr, List.length_append]
  have hjle : j < cs.length := by
    by_contra hc
    push_neg at hc
    rw [List.drop_eq_nil_of_le hc] at hr
    cases pat with
    | nil => exact hp rfl
    | cons a b => cases hr
  omega

theorem occursAt_head {P cs : List Char} {j : Nat} {h : Char}
    (hp : P.head? = some h) (hocc : occursAt P cs j = true) :
    cs[j]? = some h := by
  obtain ⟨r, hr⟩ := occursAt_eq_true_iff.mp hocc
  rw [← List.head?_drop, hr]
  cases P with
  | nil => cases hp
  | cons a b => cases hp; rfl

theorem occursAt_singleton {c : Char} {cs : List Char} {j : Nat} :
    occursAt [c] cs j = true ↔ cs[j]? = some c := by
  constructor
  · exact fun h => occursAt_head (P := [c]) rfl h
  · intro h
    rw [occursAt_eq_true_iff]
    rw [← List.head?_drop] at h
    cases hd : cs.drop j with
    | nil => rw [hd] at h; cases h
    | cons a t =>
      rw [hd] at h
      cases h
      exact ⟨t, rfl⟩

theorem findSub_eq_some_iff {pat : List Char} (hp : pat ≠ []) (cs : List Char)
    (i : Nat) :
    findSub pat cs = some i ↔
      occursAt pat cs i = true ∧ ∀ j, j < i → occursAt pat cs j = false := by
  induction cs generalizing i with
  | nil =>
    rw [findSub, if_neg (by simpa [List.isEmpty_iff] using hp)]
    simp [occursAt_nil hp]
  | cons c t ih =>
    rw [findSub]
    cases h : pat.isPrefixOf (c :: t) with
    | true =>
      rw [if_pos rfl]
      constructor
      · intro he
        cases he
        exact ⟨h, fun j hj => absurd hj (Nat.not_lt_zero j)⟩
      · rintro ⟨hocc, hmin⟩
        cases i with
        | zero => rfl
        | succ i' =>
          have := hmin 0 (Nat.succ_pos i')
          rw [occursAt_zero, h] at this
          cases this
    | false =>
      rw [if_neg (by simp [h])]
      constructor
      · intro he
        rcases hft : findSub pat t with _ | i'
        · rw [hft] at he; cases he
        · rw [hft] at he
          simp only [Option.map_some'] at he
          cases he
          obtain ⟨hocc, hmin⟩ := (ih i').mp hft
          refine ⟨by rwa [occursAt_succ], ?_⟩
          intro j hj
          cases j with
          | zero => rw [occursAt_zero]; exact h
          | succ j' =>
            rw [occursAt_succ]
            exact hmin j' (by omega)
      · rintro ⟨hocc, hmin⟩
        cases i with
        | zero =>
          rw [occursAt_zero, h] at hocc
          cases hocc
        | succ i' =>
          rw [occursAt_succ] at hocc
          have hft : findSub pat t = some i' := by
            rw [ih i']
            refine ⟨hocc, fun j hj => ?_⟩
            have := hmin (j + 1) (by omega)
            rwa [occursAt_succ] at this
          rw [hft]
          rfl

theorem findSub_eq_none_iff {pat : List Char} (hp : pat ≠ []) (cs : List Char) :
    findSub pat cs = none ↔ ∀ j, occursAt pat cs j = false := by
  induction cs with
  | nil =>
    rw [findSub, if_neg (by simpa [List.isEmpty_iff] using hp)]
    simp [occursAt_nil hp]
  | cons c t ih =>
    rw [findSub]
    cases h : pat.isPrefixOf (c :: t) with
    | true =>
      rw [if_pos rfl]
      constructor
      · intro he; cases he
      · intro hall
        have := hall 0
        rw [occursAt_zero, h] at this
        cases this
    | false =>
      rw [if_neg (by simp [h])]
      constructor
      · intro he
        have hft : findSub pat t = none := by
          rcases hft : findSub pat t with _ | i'
          · rfl
          · rw [hft] at he; cases he
        intro j
        cases j with
        | zero => rw [occursAt_zero]; exact h
        | succ j' => rw [occursAt_succ]; exact (ih.mp hft) j'
      · intro hall
        have : findSub pat t = none := by
          rw [ih]
          intro j
          have := hall (j + 1)
          rwa [occursAt_succ] at this
        rw [this]
        rfl

theorem rfindSub_some_occurs {pat cs : List Char} {i : Nat}
    (h : rfindSub pat cs = some i) : occursAt pat cs i = true := by
  induction cs generalizing i with
  | nil =>
    rw [rfindSub] at h
    split at h
    · cases h
      next hemp =>
        unfold occursAt
        rw [List.drop_nil, List.isEmpty_iff.mp hemp]
        rfl
    · cases h
  | cons c t ih =>
    rw [rfindSub] at h
    rcases hrt : rfindSub pat t with _ | p <;> simp only [hrt] at h
    · split at h
      next hpre =>
        cases h
        rw [occursAt_zero]
        exact hpre
      next => cases h
    · cases h
      rw [occursAt_succ]
      exact ih hrt

theorem rfindSub_eq_none_iff_aux {pat : List Char} (hp : pat ≠ []) (cs : List Char) :
    rfindSub pat cs = none ↔ ∀ j, occursAt pat cs j = false := by
  induction cs with
  | nil =>
    rw [rfindSub, if_neg (by simpa [List.isEmpty_iff] using hp)]
    simp [occursAt_nil hp]
  | cons c t ih =>
    rw [rfindSub]
    rcases hrt : rfindSub pat t with _ | p
    · cases h : pat.isPrefixOf (c :: t) with
      | true =>
        rw [if_pos rfl]
        constructor
        · intro he; cases he
        · intro hall
          have := hall 0
          rw [occursAt_zero, h] at this
          cases this
      | false =>
        rw [if_neg (by simp [h])]
        constructor
        · intro he
          intro j
          cases j with
          | zero => rw [occursAt_zero]; exact h
          | succ j' => rw [occursAt_succ]; exact (ih.mp hrt) j'
        · intro hall; rfl
    · constructor
      · intro he; cases he
      · intro hall
        have hocc := hall (p + 1)
        rw [occursAt_succ, rfindSub_some_occurs hrt] at hocc
        cases hocc

theorem rfindSub_eq_some_iff {pat : List Char} (hp : pat ≠ []) (cs : List Char)
    (i : Nat) :
    rfindSub pat cs = some i ↔
      occursAt pat cs i = true ∧ ∀ j, i < j → occursAt pat cs j = false := by
  induction cs generalizing i with
  | nil =>
    rw [rfindSub, if_neg (by simpa [List.isEmpty_iff] using hp)]
    simp [occursAt_nil hp]
  | cons c t ih =>
    rw [rfindSub]
    rcases hrt : rfindSub pat t with _ | p
    · cases h : pat.isPrefixOf (c :: t) with
      | true =>
        rw [if_pos rfl]
        constructor
        · intro he
          cases he
          refine ⟨h, fun j hj => ?_⟩
          obtain ⟨j', rfl⟩ : ∃ j', j = j' + 1 := ⟨j - 1, by omega⟩
          rw [occursAt_succ]
          exact ((rfindSub_eq_none_iff_aux hp t).mp hrt) j'
        · rintro ⟨hocc, hmax⟩
          cases i with
          | zero => rfl
          | succ i' =>
            rw [occursAt_succ] at hocc
            have := ((rfindSub_eq_none_iff_aux hp t).mp hrt) i'
            rw [this] at hocc
            cases hocc
      | false =>
        rw [if_neg (by simp [h])]
        constructor
        · intro he; cases he
        · rintro ⟨hocc, hmax⟩
          cases i with
          | zero =>
            rw [occursAt_zero, h] at hocc
            cases hocc
          | succ i' =>
            rw [occursAt_succ] at hocc
            have := ((rfindSub_eq_none_iff_aux hp t).mp hrt) i'
            rw [this] at hocc
            cases hocc
    · constructor
      · intro he
        cases he
        obtain ⟨hocc, hmax⟩ := (ih p).mp hrt
        refine ⟨by rwa [occursAt_succ], ?_⟩
        intro j hj
        obtain ⟨j', rfl⟩ : ∃ j', j = j' + 1 := ⟨j - 1, by omega⟩
        rw [occursAt_succ]
        exact hmax j' (by omega)
      · rintro ⟨hocc, hmax⟩
        cases i with
        | zero =>
          obtain ⟨hocc', -⟩ := (ih p).mp hrt
          have := hmax (p + 1) (Nat.succ_pos p)
          rw [occursAt_succ, hocc'] at this
          cases this
        | succ i' =>
          rw [occursAt_succ] at hocc
          have : rfindSub pat t = some i' := by
            rw [ih i']
            refine ⟨hocc, fun j hj => ?_⟩
            have := hmax (j + 1) (by omega)
            rwa [occursAt_succ] at this
          rw [hrt] at this
          cases this
          rfl

theorem findSub_of_prefix {pat cs : List Char} (hp : pat ≠ [])
    (h : pat.isPrefixOf cs = true) : findSub pat cs = some 0 := by
  cases cs with
  | nil =>
    cases pat with
    | nil => exact absurd rfl hp
    | cons a b => simp [List.isPrefixOf] at h
  | cons c t => rw [findSub, if_pos h]

theorem rfindSub_trailing {X P : List Char} (hp : P ≠ []) :
    rfindSub P (X ++ P) = some X.length := by
  rw [rfindSub_eq_some_iff hp]
  constructor
  · rw [occursAt_eq_true_iff]
    exact ⟨[], by rw [List.drop_left, List.append_nil]⟩
  · intro j hj
    cases hocc : occursAt P (X ++ P) j with
    | false => rfl
    | true =>
      have := occursAt_length_le hp hocc
      rw [List.length_append] at this
      omega

theorem containsSub_eq_false_iff {pat cs : List Char} (hp : pat ≠ []) :
    containsSub pat cs = false ↔ ∀ j, occursAt pat cs j = false := by
  unfold containsSub
  rw [← findSub_eq_none_iff hp]
  cases h : findSub pat cs <;> simp [h]

theorem containsSub_eq_true_of {pat cs : List Char} {i : Nat}
    (h : findSub pat cs = some i) : containsSub pat cs = true := by
  unfold containsSub
  rw [h]
  rfl

/-! ## String lemmas: slices of concatenations -/

theorem pySlice_middle (A B C : List Char) :
    pySlice (A ++ B ++ C) A.length (A.length + B.length) = B := by
  unfold pySlice
  rw [List.append_assoc, List.drop_left, Nat.add_sub_cancel_left,
    List.take_left]

theorem pySlice_middle_one (A B C : List Char) :
    pySlice (A ++ B ++ C) A.length (A.length + B.length) = B :=
  pySlice_middle A B C

/-! ## `loads` lemmas -/

theorem parseVal_not_value_head {fuel : Nat} {c : Char} {cs : List Char}
    (hws : isJsonWs c = false)
    (hc : c ≠ '\x7b' ∧ c ≠ '[' ∧ c ≠ '"' ∧ c ≠ 't' ∧ c ≠ 'f' ∧ c ≠ 'n' ∧
      c ≠ '-' ∧ isDigitCh c = false) :
    parseVal fuel (c :: cs) = none := by
  obtain ⟨h1, h2, h3, h4, h5, h6, h7, h8⟩ := hc
  cases fuel with
  | zero => rfl
  | succ fuel =>
    rw [parseVal]
    have hskip : skipWs (c :: cs) = c :: cs := by
      unfold skipWs
      rw [List.dropWhile_cons, if_neg (by simp [hws])]
    rw [hskip]
    simp only [if_neg h1, if_neg h2, if_neg h3, if_neg h4, if_neg h5, if_neg h6]
    rw [if_neg (by simp [h7, h8])]

theorem loads_backtick {cs : List Char} : loads ('\x60' :: cs) = none := by
  unfold loads
  rw [parseVal_not_value_head (by decide) (by refine ⟨?_, ?_, ?_, ?_, ?_, ?_, ?_, ?_⟩ <;> decide)]

theorem loads_nil : loads [] = none := rfl

/-! ## The staged decomposition of the view parser -/

theorem parse_gemini_response_eq_staged (raw : List Char) :
    parse_gemini_response raw =
      (match stage1 (pyStrip raw) with
       | some v => some v
       | none =>
         match stage2 (pyStrip raw) with
         | some v => some v
         | none =>
           match stage3 (pyStrip raw) with
           | some v => some v
           | none => stage4 (pyStrip raw)) := rfl

theorem patFenceJson_length : patFenceJson.length = 7 := rfl

theorem patFence_length : patFence.length = 3 := rfl

theorem isPrefixOf_append_self (pat X : List Char) :
    pat.isPrefixOf (pat ++ X) = true := by
  rw [List.isPrefixOf_iff_prefix]
  exact ⟨X, rfl⟩

/-- Stage 2 recovers the body of a completely fenced block. -/
theorem parse_complete_fence {raw w1 body w2 : List Char} {v : Json}
    (ht : pyStrip raw = patFenceJson ++ (w1 ++ body ++ w2) ++ patFence)
    (hw1 : ∀ c ∈ w1, isPyWs c = true) (hw2 : ∀ c ∈ w2, isPyWs c = true)
    (hbs : pyStrip body = body) (hbne : body ≠ [])
    (hv : loads body = some v) :
    parse_gemini_response raw = some v := by
  rw [parse_gemini_response_eq_staged]
  have hs1 : stage1 (pyStrip raw) = none := by
    unfold stage1
    rw [ht]
    exact loads_backtick
  have hfind : findSub patFenceJson (pyStrip raw) = some 0 := by
    rw [ht, List.append_assoc]
    exact findSub_of_prefix (by decide) (isPrefixOf_append_self _ _)
  have hrfind : rfindSub patFence (pyStrip raw) =
      some (7 + (w1 ++ body ++ w2).length) := by
    rw [ht]
    have h := rfindSub_trailing (X := patFenceJson ++ (w1 ++ body ++ w2))
      (P := patFence) (by decide)
    rwa [List.length_append, patFenceJson_length] at h
  have hbl : 0 < body.length := List.length_pos.mpr hbne
  have hs2 : stage2 (pyStrip raw) = some v := by
    unfold stage2
    rw [containsSub_eq_true_of hfind, if_pos rfl, hfind, hrfind]
    show (if 0 + 7 < 7 + (w1 ++ body ++ w2).length then
        loads (pyStrip (pySlice (pyStrip raw) (0 + 7) (7 + (w1 ++ body ++ w2).length)))
      else none) = some v
    rw [if_pos (by simp only [List.length_append]; omega)]
    have hslice : pySlice (pyStrip raw) (0 + 7) (7 + (w1 ++ body ++ w2).length) =
        w1 ++ body ++ w2 := by
      rw [ht]
      have h := pySlice_middle patFenceJson (w1 ++ body ++ w2) patFence
      rwa [patFenceJson_length] at h
    rw [hslice, pyStrip_sandwich hw1 hw2 hbs, hv]
  rw [hs1, hs2]

theorem occursAt_getElem {pat cs : List Char} {j k : Nat}
    (hocc : occursAt pat cs j = true) (hk : k < pat.length) :
    cs[j + k]? = pat[k]? := by
  obtain ⟨r, hr⟩ := occursAt_eq_true_iff.mp hocc
  have h1 : cs[j + k]? = (cs.drop j)[k]? := by
    rw [List.getElem?_drop]
  rw [h1, hr, List.getElem?_append, if_pos hk]

theorem not_occursAt_of_not_mem {P cs : List Char} {h : Char}
    (hp : P.head? = some h) (hmem : h ∉ cs) (j : Nat) :
    occursAt P cs j = false := by
  cases hocc : occursAt P cs j with
  | false => rfl
  | true => exact absurd (List.getElem?_mem (occursAt_head hp hocc)) hmem

theorem backtick_index_ge {M F : List Char} {k : Nat} (hM : '\x60' ∉ M)
    (h : (M ++ F)[k]? = some '\x60') : M.length ≤ k := by
  by_contra hc
  push_neg at hc
  rw [List.getElem?_append, if_pos hc] at h
  exact absurd (List.getElem?_mem h) hM

theorem not_occursAt_fence_mid (R : List Char) {j : Nat} (h1 : 1 ≤ j) (h2 : j ≤ 6) :
    occursAt patFence (patFenceJson ++ R) j = false := by
  have hshape : patFenceJson ++ R =
      '\x60' :: '\x60' :: '\x60' :: 'j' :: 's' :: 'o' :: 'n' :: R := rfl
  have hpat : patFence = ['\x60', '\x60', '\x60'] := rfl
  rw [hshape, hpat]
  interval_cases j <;> simp [occursAt, List.isPrefixOf]

/-- The first character of `w1 ++ body` when `body` opens with a brace:
either whitespace or the brace itself. -/
theorem head_ws_or_brace {w1 mid tail : List Char} {x : Char}
    (hw1 : ∀ c ∈ w1, isPyWs c = true)
    (h : (w1 ++ ('\x7b' :: mid ++ tail))[0]? = some x) :
    isPyWs x = true ∨ x = '\x7b' := by
  cases w1 with
  | nil =>
    rw [List.nil_append] at h
    have h1 : some '\x7b' = some x := by rw [← h]; simp
    cases h1
    exact Or.inr rfl
  | cons b t =>
    rw [List.cons_append] at h
    have h1 : some b = some x := by rw [← h]; simp
    cases h1
    exact Or.inl (hw1 _ (by simp))

/-- Stages 2 and 3 pass over a partially fenced block (opening ` \`\`\`json `
marker, no closing fence) and stage 4 recovers its brace-delimited body. -/
theorem parse_partial_fence {raw w1 mid : List Char} {v : Json}
    (ht : pyStrip raw = patFenceJson ++ w1 ++ ('\x7b' :: mid ++ ['\x7d']))
    (hw1 : ∀ c ∈ w1, isPyWs c = true)
    (hnb : ∀ c ∈ '\x7b' :: mid ++ ['\x7d'], c ≠ '\x60')
    (hv : loads ('\x7b' :: mid ++ ['\x7d']) = some v) :
    parse_gemini_response raw = some v := by
  have hR_nb : '\x60' ∉ w1 ++ ('\x7b' :: mid ++ ['\x7d']) := by
    rw [List.mem_append]
    rintro (hmem | hmem)
    · have := hw1 _ hmem
      simp [isPyWs] at this
    · exact absurd rfl (hnb _ hmem)
  have ht' : pyStrip raw = patFenceJson ++ (w1 ++ ('\x7b' :: mid ++ ['\x7d'])) := by
    rw [ht, List.append_assoc]
  -- any occurrence of ``` in the stripped text starts at index 0
  have hfence_zero : ∀ j, occursAt patFence (pyStrip raw) j = true → j = 0 := by
    intro j hocc
    by_contra hj
    rcases Nat.lt_or_ge j 7 with hj7 | hj7
    · rw [ht', not_occursAt_fence_mid _ (Nat.one_le_iff_ne_zero.mpr hj) (by omega)]
        at hocc
      cases hocc
    · have hhd := occursAt_head (P := patFence) rfl hocc
      rw [ht', List.getElem?_append_right (by
        rw [patFenceJson_length]; omega)] at hhd
      exact absurd (List.getElem?_mem hhd) hR_nb
  have hfind : findSub patFenceJson (pyStrip raw) = some 0 := by
    rw [ht']
    exact findSub_of_prefix (by decide) (isPrefixOf_append_self _ _)
  have hrfind : rfindSub patFence (pyStrip raw) = some 0 := by
    rw [rfindSub_eq_some_iff (by decide)]
    constructor
    · rw [occursAt_zero, ht']
      rfl
    · intro j hj
      cases hocc : occursAt patFence (pyStrip raw) j with
      | false => rfl
      | true => exact absurd (hfence_zero j hocc) (by omega)
  have hs1 : stage1 (pyStrip raw) = none := by
    unfold stage1
    rw [ht']
    exact loads_backtick
  have hs2 : stage2 (pyStrip raw) = none := by
    unfold stage2
    rw [containsSub_eq_true_of hfind, if_pos rfl, hfind, hrfind]
    rfl
  have hs3 : stage3 (pyStrip raw) = none := by
    unfold stage3
    rw [hfind]
    show (match findSub patFence ((pyStrip raw).drop (0 + 7)) with
          | some q => loads (pyStrip (pySlice (pyStrip raw) (0 + 7) (0 + 7 + q)))
          | none => none) = none
    have hdrop : (pyStrip raw).drop (0 + 7) = w1 ++ ('\x7b' :: mid ++ ['\x7d']) := by
      rw [ht']
      have h7 : patFenceJson.length = 0 + 7 := rfl
      rw [← h7, List.drop_left]
    rw [hdrop,
      (findSub_eq_none_iff (by decide) _).mpr
        (not_occursAt_of_not_mem (P := patFence) rfl hR_nb)]
  have hifind : findSub (strL "\x7b") (pyStrip raw) =
      some (7 + w1.length) := by
    rw [findSub_eq_some_iff (by decide)]
    constructor
    · rw [occursAt_eq_true_iff]
      refine ⟨mid ++ ['\x7d'], ?_⟩
      rw [ht, show (7 : Nat) + w1.length = (patFenceJson ++ w1).length by
        simp [patFenceJson, strL]; omega, List.drop_left]
      rfl
    · intro j hj
      cases hocc : occursAt (strL "\x7b") (pyStrip raw) j with
      | false => rfl
      | true =>
        exfalso
        have hhd := occursAt_head (P := strL "\x7b") rfl hocc
        rcases Nat.lt_or_ge j 7 with hj7 | hj7
        · rw [ht', List.getElem?_append,
            if_pos (by rw [patFenceJson_length]; omega),
            show patFenceJson = ['\x60', '\x60', '\x60', 'j', 's', 'o', 'n']
              from rfl] at hhd
          interval_cases j <;> simp at hhd
        · rw [ht, List.append_assoc,
            List.getElem?_append_right (le_of_eq_of_le patFenceJson_length hj7),
            patFenceJson_length,
            List.getElem?_append, if_pos (by omega)] at hhd
          have := hw1 _ (List.getElem?_mem hhd)
          simp [isPyWs] at this
  have hjfind : rfindSub (strL "\x7d") (pyStrip raw) =
      some (7 + w1.length + (1 + mid.length)) := by
    have hX : pyStrip raw =
        (patFenceJson ++ w1 ++ ('\x7b' :: mid)) ++ strL "\x7d" := by
      rw [ht]
      simp [strL, List.append_assoc]
    rw [hX]
    have h := rfindSub_trailing (X := patFenceJson ++ w1 ++ ('\x7b' :: mid))
      (P := strL "\x7d") (by decide)
    rwa [show (patFenceJson ++ w1 ++ ('\x7b' :: mid)).length =
        7 + w1.length + (1 + mid.length) by
      simp [patFenceJson, strL]; omega] at h
  have hs4 : stage4 (pyStrip raw) = some v := by
    unfold stage4
    rw [hifind, hjfind]
    show (if 7 + w1.length < 7 + w1.length + (1 + mid.length) then
        loads (pySlice (pyStrip raw) (7 + w1.length)
          (7 + w1.length + (1 + mid.length) + 1))
      else none) = some v
    rw [if_pos (by omega)]
    have hslice : pySlice (pyStrip raw) (7 + w1.length)
        (7 + w1.length + (1 + mid.length) + 1) = '\x7b' :: mid ++ ['\x7d'] := by
      have hX : pyStrip raw =
          (patFenceJson ++ w1) ++ ('\x7b' :: mid ++ ['\x7d']) ++ [] := by
        rw [ht, List.append_nil, List.append_assoc]
      rw [hX]
      have h := pySlice_middle (patFenceJson ++ w1) ('\x7b' :: mid ++ ['\x7d']) []
      rwa [show (patFenceJson ++ w1).length = 7 + w1.length by
          simp [patFenceJson, strL]; omega,
        show ('\x7b' :: mid ++ ['\x7d']).length = 1 + mid.length + 1 by
          simp; omega,
        show 7 + w1.length + (1 + mid.length + 1) =
          7 + w1.length + (1 + mid.length) + 1 by omega] at h
    rw [hslice, hv]
  rw [parse_gemini_response_eq_staged, hs1, hs2, hs3]
  exact hs4

/-- Stages 1–3 pass over an untagged-fenced block (opening ` ``` ` without
`json`) and stage 4 recovers its brace-delimited body; `F` is an optional
closing fence. -/
theorem parse_untagged_fence {raw w1 mid w2 F : List Char} {v : Json}
    (ht : pyStrip raw =
      patFence ++ (w1 ++ (('\x7b' :: mid ++ ['\x7d']) ++ (w2 ++ F))))
    (hw1 : ∀ c ∈ w1, isPyWs c = true) (hw2 : ∀ c ∈ w2, isPyWs c = true)
    (hF : F = [] ∨ F = patFence)
    (hnb : ∀ c ∈ '\x7b' :: mid ++ ['\x7d'], c ≠ '\x60')
    (hv : loads ('\x7b' :: mid ++ ['\x7d']) = some v) :
    parse_gemini_response raw = some v := by
  have hM_nb : '\x60' ∉ w1 ++ (('\x7b' :: mid ++ ['\x7d']) ++ w2) := by
    intro hmem
    rcases List.mem_append.mp hmem with h1 | h2
    · have := hw1 _ h1
      simp [isPyWs] at this
    · rcases List.mem_append.mp h2 with h3 | h4
      · exact absurd rfl (hnb _ h3)
      · have := hw2 _ h4
        simp [isPyWs] at this
  have hFlen : F.length ≤ 3 := by
    rcases hF with rfl | rfl <;> decide
  have htM : pyStrip raw =
      patFence ++ ((w1 ++ (('\x7b' :: mid ++ ['\x7d']) ++ w2)) ++ F) := by
    rw [ht]
    simp [List.append_assoc]
  have hM0 : ∀ x, (w1 ++ (('\x7b' :: mid ++ ['\x7d']) ++ w2))[0]? = some x →
      isPyWs x = true ∨ x = '\x7b' := by
    intro x hx
    have hx' : (w1 ++ ('\x7b' :: mid ++ (['\x7d'] ++ w2)))[0]? = some x := by
      rw [show w1 ++ ('\x7b' :: mid ++ (['\x7d'] ++ w2)) =
          w1 ++ (('\x7b' :: mid ++ ['\x7d']) ++ w2) by simp]
      exact hx
    exact head_ws_or_brace hw1 hx'
  have h3M : (pyStrip raw)[3]? =
      (w1 ++ (('\x7b' :: mid ++ ['\x7d']) ++ w2))[0]? := by
    rw [htM, List.getElem?_append_right (le_of_eq_of_le patFence_length (by omega)),
      patFence_length]
    rw [List.getElem?_append, if_pos (by simp)]
  -- no occurrence of ```json anywhere in the stripped text
  have hnofj : ∀ j, occursAt patFenceJson (pyStrip raw) j = false := by
    intro j
    cases hocc : occursAt patFenceJson (pyStrip raw) j with
    | false => rfl
    | true =>
      exfalso
      have hlen := occursAt_length_le (by decide) hocc
      rcases Nat.lt_or_ge j 3 with hj3 | hj3
      · rcases hx : (w1 ++ (('\x7b' :: mid ++ ['\x7d']) ++ w2))[0]? with _ | x
        · have h30 := h3M
          rw [hx] at h30
          have := occursAt_getElem hocc (show 3 - j < patFenceJson.length by
            rw [patFenceJson_length]; omega)
          rw [show j + (3 - j) = 3 by omega, h30] at this
          rw [List.getElem?_eq_getElem (by rw [patFenceJson_length]; omega)] at this
          cases this
        · have h30 := h3M
          rw [hx] at h30
          have hpe := occursAt_getElem hocc (show 3 - j < patFenceJson.length by
            rw [patFenceJson_length]; omega)
          rw [show j + (3 - j) = 3 by omega, h30] at hpe
          have hxval : patFenceJson[3 - j]? = some x := hpe.symm
          rcases hM0 x hx with hws | rfl
          · -- x would be a backtick or 'j': neither is whitespace
            interval_cases j <;> cases hxval <;> revert hws <;> decide
          · -- x = the brace, which does not occur in the marker
            interval_cases j <;> cases hxval
      · have hhd := occursAt_head (P := patFenceJson) rfl hocc
        rw [htM, List.getElem?_append_right (le_of_eq_of_le patFence_length hj3),
          patFence_length] at hhd
        have hsplitF : ((w1 ++ (('\x7b' :: mid ++ ['\x7d']) ++ w2)) ++ F)[j - 3]? =
            some '\x60' := hhd
        have hge := backtick_index_ge hM_nb hsplitF
        rw [htM] at hlen
        simp only [List.length_append, List.length_cons, patFence_length,
          patFenceJson_length] at hlen hge
        omega
  have hs1 : stage1 (pyStrip raw) = none := by
    unfold stage1
    rw [htM]
    exact loads_backtick
  have hnofind : findSub patFenceJson (pyStrip raw) = none :=
    (findSub_eq_none_iff (by decide) _).mpr hnofj
  have hs2 : stage2 (pyStrip raw) = none := by
    unfold stage2
    rw [if_neg (by unfold containsSub; rw [hnofind]; simp)]
  have hs3 : stage3 (pyStrip raw) = none := by
    unfold stage3
    rw [hnofind]
  have hA : pyStrip raw =
      (patFence ++ w1) ++ (('\x7b' :: mid ++ ['\x7d']) ++ (w2 ++ F)) := by
    rw [ht]
    simp [List.append_assoc]
  have hAlen : (patFence ++ w1).length = 3 + w1.length := by
    rw [List.length_append, patFence_length]
  have hifind : findSub (strL "\x7b") (pyStrip raw) = some (3 + w1.length) := by
    rw [findSub_eq_some_iff (by decide)]
    constructor
    · rw [occursAt_eq_true_iff]
      refine ⟨mid ++ ['\x7d'] ++ (w2 ++ F), ?_⟩
      rw [hA, ← hAlen, List.drop_left]
      simp only [List.append_assoc, List.cons_append, List.singleton_append]
      rfl
    · intro j hj
      cases hocc : occursAt (strL "\x7b") (pyStrip raw) j with
      | false => rfl
      | true =>
        exfalso
        have hhd := occursAt_head (P := strL "\x7b") rfl hocc
        rcases Nat.lt_or_ge j 3 with hj3 | hj3
        · rw [htM, List.getElem?_append,
            if_pos (by rw [patFence_length]; omega),
            show patFence = ['\x60', '\x60', '\x60'] from rfl] at hhd
          interval_cases j <;> cases hhd
        · have hw1j : (pyStrip raw)[j]? = w1[j - 3]? := by
            rw [htM, List.getElem?_append_right
              (le_of_eq_of_le patFence_length hj3), patFence_length]
            rw [List.getElem?_append, if_pos (by
              simp only [List.length_append]
              omega)]
            rw [List.getElem?_append, if_pos (by omega)]
          rw [hw1j] at hhd
          have := hw1 _ (List.getElem?_mem hhd)
          simp [isPyWs] at this
  have hjfind : rfindSub (strL "\x7d") (pyStrip raw) =
      some (3 + w1.length + (1 + mid.length)) := by
    rw [rfindSub_eq_some_iff (by decide)]
    constructor
    · rw [occursAt_eq_true_iff]
      refine ⟨w2 ++ F, ?_⟩
      have hB : pyStrip raw =
          (patFence ++ w1 ++ ('\x7b' :: mid)) ++ (['\x7d'] ++ (w2 ++ F)) := by
        rw [ht]
        simp [List.append_assoc]
      have hBlen : (patFence ++ w1 ++ ('\x7b' :: mid)).length =
          3 + w1.length + (1 + mid.length) := by
        simp only [List.length_append, List.length_cons, patFence_length]
        omega
      rw [hB, ← hBlen, List.drop_left]
      rfl
    · intro j hj
      cases hocc : occursAt (strL "\x7d") (pyStrip raw) j with
      | false => rfl
      | true =>
        exfalso
        have hhd := occursAt_head (P := strL "\x7d") rfl hocc
        have hC : pyStrip raw =
            (patFence ++ w1 ++ ('\x7b' :: mid ++ ['\x7d'])) ++ (w2 ++ F) := by
          rw [ht]
          simp [List.append_assoc]
        have hClen : (patFence ++ w1 ++ ('\x7b' :: mid ++ ['\x7d'])).length =
            3 + w1.length + (1 + mid.length) + 1 := by
          simp only [List.length_append, List.length_cons, patFence_length]
          simp
          omega
        rw [hC, List.getElem?_append_right (by rw [hClen]; omega)] at hhd
        have hmem := List.getElem?_mem hhd
        rcases List.mem_append.mp hmem with hmem | hmem
        · have := hw2 _ hmem
          simp [isPyWs] at this
        · rcases hF with rfl | rfl
          · cases hmem
          · rw [show patFence = ['\x60', '\x60', '\x60'] from rfl] at hmem
            simp at hmem
  have hs4 : stage4 (pyStrip raw) = some v := by
    unfold stage4
    rw [hifind, hjfind]
    show (if 3 + w1.length < 3 + w1.length + (1 + mid.length) then
        loads (pySlice (pyStrip raw) (3 + w1.length)
          (3 + w1.length + (1 + mid.length) + 1))
      else none) = some v
    rw [if_pos (by omega)]
    have hD : pyStrip raw =
        (patFence ++ w1) ++ ('\x7b' :: mid ++ ['\x7d']) ++ (w2 ++ F) := by
      rw [ht]
      simp [List.append_assoc]
    have hslice : pySlice (pyStrip raw) (3 + w1.length)
        (3 + w1.length + (1 + mid.length) + 1) = '\x7b' :: mid ++ ['\x7d'] := by
      rw [hD]
      have h := pySlice_middle (patFence ++ w1) ('\x7b' :: mid ++ ['\x7d']) (w2 ++ F)
      rwa [hAlen,
        show ('\x7b' :: mid ++ ['\x7d']).length = 1 + mid.length + 1 by
          simp; omega,
        show 3 + w1.length + (1 + mid.length + 1) =
          3 + w1.length + (1 + mid.length) + 1 by omega] at h
    rw [hslice, hv]
  rw [parse_gemini_response_eq_staged, hs1, hs2, hs3]
  exact hs4


/-! ## Parser remainder invariants: the remainder of a successful parse
is a suffix of the input, and a parsed object consumes through a closing
brace.  Used to show `json.loads` rejects an object body followed by a
stray fence. -/

theorem parseStringRest_map_inv {C : Char} {rest k rem : List Char}
    (h : (parseStringRest rest).map (fun p => (C :: p.1, p.2)) = some (k, rem)) :
    ∃ k1, k = C :: k1 ∧ parseStringRest rest = some (k1, rem) := by
  rcases hp : parseStringRest rest with _ | ⟨k1, rem1⟩
  · rw [hp] at h
    cases h
  · rw [hp] at h
    simp only [Option.map_some'] at h
    injection h with h1
    injection h1 with e1 e2
    exact ⟨k1, e1.symm, by rw [e2]⟩

theorem parseStringRest_suffix :
    ∀ (n : Nat) (cs : List Char), cs.length ≤ n →
      ∀ k rem : List Char, parseStringRest cs = some (k, rem) → rem <:+ cs := by
  intro n
  induction n with
  | zero =>
    intro cs hle k rem h
    rw [List.length_eq_zero.mp (Nat.le_zero.mp hle)] at h
    cases h
  | succ n ih =>
    intro cs hle k rem h
    rw [parseStringRest.eq_def] at h
    split at h
    · cases h
    · rename_i rest
      cases h
      exact List.suffix_cons _ _
    · rename_i e rest
      rw [List.length_cons, List.length_cons] at hle
      have hrle : rest.length ≤ n := by omega
      split at h
      · obtain ⟨k1, rfl, hp⟩ := parseStringRest_map_inv h
        exact (ih rest hrle _ _ hp).trans (List.suffix_append ['\\', e] rest)
      ·
        split at h
        · obtain ⟨k1, rfl, hp⟩ := parseStringRest_map_inv h
          exact (ih rest hrle _ _ hp).trans (List.suffix_append ['\\', e] rest)
        ·
          split at h
          · obtain ⟨k1, rfl, hp⟩ := parseStringRest_map_inv h
            exact (ih rest hrle _ _ hp).trans (List.suffix_append ['\\', e] rest)
          ·
            split at h
            · obtain ⟨k1, rfl, hp⟩ := parseStringRest_map_inv h
              exact (ih rest hrle _ _ hp).trans (List.suffix_append ['\\', e] rest)
            ·
              split at h
              · obtain ⟨k1, rfl, hp⟩ := parseStringRest_map_inv h
                exact (ih rest hrle _ _ hp).trans (List.suffix_append ['\\', e] rest)
              ·
                split at h
                · obtain ⟨k1, rfl, hp⟩ := parseStringRest_map_inv h
                  exact (ih rest hrle _ _ hp).trans (List.suffix_append ['\\', e] rest)
                ·
                  split at h
                  · obtain ⟨k1, rfl, hp⟩ := parseStringRest_map_inv h
                    exact (ih rest hrle _ _ hp).trans (List.suffix_append ['\\', e] rest)
                  ·
                    split at h
                    · obtain ⟨k1, rfl, hp⟩ := parseStringRest_map_inv h
                      exact (ih rest hrle _ _ hp).trans (List.suffix_append ['\\', e] rest)
                    ·
                      split at h
                      · -- the four-hex-digit escape
                        split at h
                        · rename_i h1 h2 h3 h4 rest2
                          rcases ha : hexVal h1 with _ | a <;> rw [ha] at h
                          · cases h
                          rcases hb : hexVal h2 with _ | b <;> rw [hb] at h
                          · cases h
                          rcases hc : hexVal h3 with _ | c <;> rw [hc] at h
                          · cases h
                          rcases hd : hexVal h4 with _ | d <;> rw [hd] at h
                          · cases h
                          obtain ⟨k1, rfl, hp⟩ := parseStringRest_map_inv h
                          have hr2 : rest2.length ≤ n := by
                            simp only [List.length_cons] at hle hrle ⊢
                            omega
                          exact (ih rest2 hr2 _ _ hp).trans
                            (List.suffix_append ['\\', e, h1, h2, h3, h4] rest2)
                        · cases h
                      · cases h
    · rename_i c rest hx1 hx2
      rw [List.length_cons] at hle
      split at h
      · cases h
      · obtain ⟨k1, rfl, hp⟩ := parseStringRest_map_inv h
        exact (ih rest (by omega) _ _ hp).trans (List.suffix_cons _ _)

theorem parseNumber_neg (r : List Char) : parseNumber ('-' :: r) = numTail true r := rfl

theorem parseNumber_nosign {c : Char} (r : List Char) (hc : c ≠ '-') :
    parseNumber (c :: r) = numTail false (c :: r) := by
  have hm : (match c :: r with
      | '-' :: rr => ((true : Bool), rr)
      | _ => ((false : Bool), c :: r)) = ((false : Bool), c :: r) := by
    split
    · rename_i rr heq
      injection heq with h1 _
      exact absurd h1 hc
    · rfl
  simp only [parseNumber]
  rw [hm]
  rfl

theorem numTail_suffix {neg : Bool} {cs1 : List Char} {q : PyNum} {rem : List Char}
    (h : numTail neg cs1 = some (q, rem)) : rem <:+ cs1 := by
  have hs1 : cs1.dropWhile isDigitCh <:+ cs1 := List.dropWhile_suffix _
  simp only [numTail] at h
  split at h
  · cases h
  split at h
  · cases h
  split at h
  · -- a fraction dot follows the integer digits
    rename_i r0 heqf
    have hr0 : r0 <:+ cs1 := by
      have := List.suffix_cons '.' r0
      rw [← heqf] at this
      exact this.trans hs1
    have hrd : List.dropWhile isDigitCh r0 <:+ cs1 :=
      (List.dropWhile_suffix _).trans hr0
    split at h
    · -- no digits after the dot
      dsimp only at h
      split at h
      · -- exponent candidate character present
        rename_i e r heqe
        split at h
        · -- e is an exponent marker; branch on the sign of the exponent
          split at h
          · rename_i r2
            split at h
            · dsimp only at h
              cases h
              exact hs1
            · dsimp only at h
              cases h
              have hx : List.dropWhile isDigitCh r2 <:+ e :: '+' :: r2 := by
                refine ((List.dropWhile_suffix _).trans ?_)
                exact List.suffix_append [e, '+'] r2
              rw [← heqe] at hx
              exact hx.trans hs1
          · rename_i r2
            split at h
            · dsimp only at h
              cases h
              exact hs1
            · dsimp only at h
              cases h
              have hx : List.dropWhile isDigitCh r2 <:+ e :: '-' :: r2 := by
                refine ((List.dropWhile_suffix _).trans ?_)
                exact List.suffix_append [e, '-'] r2
              rw [← heqe] at hx
              exact hx.trans hs1
          · -- marker present but not followed by digits in the right shape
            rename_i rdef x1 x2
            split at h
            · dsimp only at h
              cases h
              exact hs1
            · dsimp only at h
              cases h
              have hx : List.dropWhile isDigitCh r <:+ e :: r := by
                exact (List.dropWhile_suffix _).trans (List.suffix_cons _ _)
              rw [← heqe] at hx
              exact hx.trans hs1
        · -- e is not an exponent marker
          dsimp only at h
          cases h
          exact hs1
      · -- no exponent part
        dsimp only at h
        cases h
        exact hs1
    · -- digits after the dot
      dsimp only at h
      split at h
      · -- exponent candidate character present
        rename_i e r heqe
        split at h
        · -- e is an exponent marker; branch on the sign of the exponent
          split at h
          · rename_i r2
            split at h
            · dsimp only at h
              cases h
              exact hrd
            · dsimp only at h
              cases h
              have hx : List.dropWhile isDigitCh r2 <:+ e :: '+' :: r2 := by
                refine ((List.dropWhile_suffix _).trans ?_)
                exact List.suffix_append [e, '+'] r2
              rw [← heqe] at hx
              exact hx.trans hrd
          · rename_i r2
            split at h
            · dsimp only at h
              cases h
              exact hrd
            · dsimp only at h
              cases h
              have hx : List.dropWhile isDigitCh r2 <:+ e :: '-' :: r2 := by
                refine ((List.dropWhile_suffix _).trans ?_)
                exact List.suffix_append [e, '-'] r2
              rw [← heqe] at hx
              exact hx.trans hrd
          · -- marker present but not followed by digits in the right shape
            rename_i rdef x1 x2
            split at h
            · dsimp only at h
              cases h
              exact hrd
            · dsimp only at h
              cases h
              have hx : List.dropWhile isDigitCh r <:+ e :: r := by
                exact (List.dropWhile_suffix _).trans (List.suffix_cons _ _)
              rw [← heqe] at hx
              exact hx.trans hrd
        · -- e is not an exponent marker
          dsimp only at h
          cases h
          exact hrd
      · -- no exponent part
        dsimp only at h
        cases h
        exact hrd
  · -- no fraction part
    dsimp only at h
    split at h
    · -- exponent candidate character present
      rename_i e r heqe
      split at h
      · -- e is an exponent marker; branch on the sign of the exponent
        split at h
        · rename_i r2
          split at h
          · dsimp only at h
            cases h
            exact hs1
          · dsimp only at h
            cases h
            have hx : List.dropWhile isDigitCh r2 <:+ e :: '+' :: r2 := by
              refine ((List.dropWhile_suffix _).trans ?_)
              exact List.suffix_append [e, '+'] r2
            rw [← heqe] at hx
            exact hx.trans hs1
        · rename_i r2
          split at h
          · dsimp only at h
            cases h
            exact hs1
          · dsimp only at h
            cases h
            have hx : List.dropWhile isDigitCh r2 <:+ e :: '-' :: r2 := by
              refine ((List.dropWhile_suffix _).trans ?_)
              exact List.suffix_append [e, '-'] r2
            rw [← heqe] at hx
            exact hx.trans hs1
        · -- marker present but not followed by digits in the right shape
          rename_i rdef x1 x2
          split at h
          · dsimp only at h
            cases h
            exact hs1
          · dsimp only at h
            cases h
            have hx : List.dropWhile isDigitCh r <:+ e :: r := by
              exact (List.dropWhile_suffix _).trans (List.suffix_cons _ _)
            rw [← heqe] at hx
            exact hx.trans hs1
      · -- e is not an exponent marker
        dsimp only at h
        cases h
        exact hs1
    · -- no exponent part
      dsimp only at h
      cases h
      exact hs1

theorem parseNumber_suffix {cs : List Char} {q : PyNum} {rem : List Char}
    (h : parseNumber cs = some (q, rem)) : rem <:+ cs := by
  rcases cs with _ | ⟨c0, cs0⟩
  · cases h
  by_cases hc0 : c0 = '-'
  · subst hc0
    rw [parseNumber_neg] at h
    exact (numTail_suffix h).trans (List.suffix_cons _ _)
  · rw [parseNumber_nosign cs0 hc0] at h
    exact numTail_suffix h

theorem skipWs_cons_suffix {cs rest : List Char} {c : Char}
    (h : skipWs cs = c :: rest) : c :: rest <:+ cs := by
  rw [← h]
  exact List.dropWhile_suffix _

theorem skipWs_tail_suffix {cs rest : List Char} {c : Char}
    (h : skipWs cs = c :: rest) : rest <:+ cs :=
  (List.suffix_cons _ _).trans (skipWs_cons_suffix h)

theorem map_fst_eq_some {α β γ : Type} {g : α → γ} {o : Option (α × β)} {v : γ} {r : β}
    (h : o.map (fun p => (g p.1, p.2)) = some (v, r)) :
    ∃ a, o = some (a, r) ∧ v = g a := by
  rcases ho : o with _ | ⟨a, b⟩
  · rw [ho] at h
    cases h
  · rw [ho] at h
    simp only [Option.map_some'] at h
    injection h with h1
    injection h1 with e1 e2
    exact ⟨a, by rw [e2], e1.symm⟩

theorem parse_suffix : ∀ f : Nat,
    (∀ cs v rem, parseVal f cs = some (v, rem) →
      rem <:+ cs ∧ ∀ m, v = Json.obj m → '\x7d' :: rem <:+ cs) ∧
    (∀ cs ms rem, parseMembers f cs = some (ms, rem) → '\x7d' :: rem <:+ cs) ∧
    (∀ cs es rem, parseElems f cs = some (es, rem) → ']' :: rem <:+ cs) := by
  intro f
  induction f with
  | zero =>
    refine ⟨?_, ?_, ?_⟩ <;> intro cs a rem h <;> cases h
  | succ f ih =>
    obtain ⟨ihV, ihM, ihE⟩ := ih
    refine ⟨?_, ?_, ?_⟩
    · -- parseVal
      intro cs v rem h
      simp only [parseVal] at h
      split at h
      · cases h
      rename_i c rest heq0
      have hrest : rest <:+ cs := skipWs_tail_suffix heq0
      have hcrest : c :: rest <:+ cs := skipWs_cons_suffix heq0
      by_cases hc1 : c = '\x7b'
      · rw [if_pos hc1] at h
        subst hc1
        split at h
        · -- immediate closing brace
          rename_i rest2 heq1
          cases h
          have hb : '\x7d' :: rem <:+ cs := (skipWs_cons_suffix heq1).trans hrest
          exact ⟨(List.suffix_cons _ _).trans hb, fun m hm => hb⟩
        · -- nonempty member list
          obtain ⟨ms, hp, hv⟩ := map_fst_eq_some h
          have hb : '\x7d' :: rem <:+ cs := (ihM rest ms rem hp).trans hrest
          exact ⟨(List.suffix_cons _ _).trans hb, fun m hm => hb⟩
      rw [if_neg hc1] at h
      by_cases hc2 : c = '['
      · rw [if_pos hc2] at h
        subst hc2
        split at h
        · rename_i rest2 heq1
          cases h
          refine ⟨(skipWs_tail_suffix heq1).trans hrest, fun m hm => ?_⟩
          cases hm
        · obtain ⟨es, hp, hv⟩ := map_fst_eq_some h
          refine ⟨((List.suffix_cons _ _).trans (ihE rest es rem hp)).trans hrest,
            fun m hm => ?_⟩
          rw [hv] at hm
          cases hm
      rw [if_neg hc2] at h
      by_cases hc3 : c = '"'
      · rw [if_pos hc3] at h
        obtain ⟨s1, hp, hv⟩ := map_fst_eq_some h
        refine ⟨(parseStringRest_suffix rest.length rest le_rfl _ _ hp).trans hrest,
          fun m hm => ?_⟩
        rw [hv] at hm
        cases hm
      rw [if_neg hc3] at h
      by_cases hc4 : c = 't'
      · rw [if_pos hc4] at h
        split at h
        · cases h
          refine ⟨(List.suffix_append ['r', 'u', 'e'] rem).trans hrest,
            fun m hm => ?_⟩
          cases hm
        · cases h
      rw [if_neg hc4] at h
      by_cases hc5 : c = 'f'
      · rw [if_pos hc5] at h
        split at h
        · cases h
          refine ⟨(List.suffix_append ['a', 'l', 's', 'e'] rem).trans hrest,
            fun m hm => ?_⟩
          cases hm
        · cases h
      rw [if_neg hc5] at h
      by_cases hc6 : c = 'n'
      · rw [if_pos hc6] at h
        split at h
        · cases h
          refine ⟨(List.suffix_append ['u', 'l', 'l'] rem).trans hrest,
            fun m hm => ?_⟩
          cases hm
        · cases h
      rw [if_neg hc6] at h
      by_cases hc7 : (c = '-' || isDigitCh c) = true
      · rw [if_pos hc7] at h
        obtain ⟨q1, hp, hv⟩ := map_fst_eq_some h
        refine ⟨(parseNumber_suffix hp).trans hcrest, fun m hm => ?_⟩
        rw [hv] at hm
        cases hm
      rw [if_neg hc7] at h
      cases h
    · -- parseMembers
      intro cs ms rem h
      simp only [parseMembers] at h
      split at h
      case h_2 => cases h
      rename_i rest heq0
      split at h
      case h_2 => cases h
      rename_i key rest2 heq1
      split at h
      case h_2 => cases h
      rename_i rest3 heq2
      split at h
      case h_2 => cases h
      rename_i v rest4 heq3
      have hchain : rest4 <:+ cs :=
        ((((ihV rest3 v rest4 heq3).1.trans
            (skipWs_tail_suffix heq2)).trans
          (parseStringRest_suffix rest.length rest le_rfl _ _ heq1)).trans
          (skipWs_tail_suffix heq0))
      split at h
      · -- comma: further members
        rename_i rest5 heq4
        obtain ⟨ms2, hp, hv⟩ := map_fst_eq_some h
        exact ((ihM rest5 ms2 rem hp).trans (skipWs_tail_suffix heq4)).trans hchain
      · -- closing brace
        rename_i rest5 heq4
        cases h
        exact (skipWs_cons_suffix heq4).trans hchain
      · cases h
    · -- parseElems
      intro cs es rem h
      simp only [parseElems] at h
      split at h
      case h_2 => cases h
      rename_i v rest heq0
      have hrest : rest <:+ cs := (ihV cs v rest heq0).1
      split at h
      · -- comma: further elements
        rename_i rest2 heq1
        obtain ⟨es2, hp, hv⟩ := map_fst_eq_some h
        exact ((ihE rest2 es2 rem hp).trans (skipWs_tail_suffix heq1)).trans hrest
      · -- closing bracket
        rename_i rest2 heq1
        cases h
        exact (skipWs_cons_suffix heq1).trans hrest
      · cases h

theorem loads_brace_obj {cs rest : List Char} {v : Json}
    (hsk : skipWs cs = '\x7b' :: rest) (h : loads cs = some v) :
    ∃ m, v = Json.obj m := by
  simp only [loads] at h
  split at h
  case h_2 => cases h
  rename_i v1 rest1 heqp
  split at h
  case h_2 => cases h
  injection h with hv
  subst hv
  simp only [parseVal, hsk, reduceIte] at heqp
  split at heqp
  · injection heqp with h1
    injection h1 with h2 h3
    exact ⟨[], h2.symm⟩
  · obtain ⟨ms, hp, hv⟩ := map_fst_eq_some heqp
    exact ⟨ms, hv⟩

theorem loads_obj_trailing {cs : List Char} {m : List (List Char × Json)}
    (h : loads cs = some (Json.obj m)) :
    ∃ A rem, A ++ '\x7d' :: rem = cs ∧ ∀ c ∈ rem, isJsonWs c = true := by
  simp only [loads] at h
  split at h
  case h_2 => cases h
  rename_i v1 rest1 heqp
  split at h
  case h_2 => cases h
  rename_i hwsnil
  injection h with hv
  subst hv
  obtain ⟨A, hA⟩ :=
    ((parse_suffix (cs.length + 1)).1 cs _ rest1 heqp).2 m rfl
  exact ⟨A, rest1, hA, List.dropWhile_eq_nil_iff.mp hwsnil⟩

theorem loads_body_fence_none {mid u2 : List Char}
    (hu2 : ∀ c ∈ u2, isPyWs c = true) :
    loads (('\x7b' :: mid ++ ['\x7d']) ++ (u2 ++ ['\x60', '\x60', '\x60'])) = none := by
  rcases hl : loads (('\x7b' :: mid ++ ['\x7d']) ++ (u2 ++ ['\x60', '\x60', '\x60']))
    with _ | v
  · rfl
  exfalso
  have hsk : skipWs (('\x7b' :: mid ++ ['\x7d']) ++ (u2 ++ ['\x60', '\x60', '\x60'])) =
      '\x7b' :: (mid ++ ['\x7d'] ++ (u2 ++ ['\x60', '\x60', '\x60'])) := by
    simp only [List.cons_append]
    unfold skipWs
    rw [List.dropWhile_cons, if_neg (by decide)]
  obtain ⟨m, rfl⟩ := loads_brace_obj hsk hl
  obtain ⟨A, rem, hcs, hws⟩ := loads_obj_trailing hl
  have hlast : ((('\x7b' :: mid ++ ['\x7d']) ++ (u2 ++ ['\x60', '\x60', '\x60']))).getLast? =
      some '\x60' := by
    rw [show (('\x7b' :: mid ++ ['\x7d']) ++ (u2 ++ ['\x60', '\x60', '\x60'])) =
        (('\x7b' :: mid ++ ['\x7d']) ++ u2 ++ ['\x60', '\x60']) ++ ['\x60'] by
      simp [List.append_assoc]]
    exact List.getLast?_concat _
  rw [← hcs] at hlast
  rcases rem.eq_nil_or_concat with rfl | ⟨ys, y, rfl⟩
  · rw [show A ++ '\x7d' :: ([] : List Char) = A ++ ['\x7d'] from rfl,
      List.getLast?_concat] at hlast
    cases hlast
  · rw [List.concat_eq_append] at hlast hws
    rw [show A ++ '\x7d' :: (ys ++ [y]) = (A ++ '\x7d' :: ys) ++ [y] by
      simp, List.getLast?_concat] at hlast
    injection hlast with hy
    have hcontra := hws y (by simp)
    rw [hy] at hcontra
    cases hcontra

/-! ## Claim C9: the view parser refines the service parser -/

/-- C9 counterexample: on the fenced non-object response ` ```\ntrue\n``` `
the service-layer parser succeeds (it strips the fences and parses `true`),
but the view-layer parser fails: stage 1 chokes on the backticks, stages 2–3
need a ` ```json ` tag, and stage 4 needs braces.  The two parsers are not
equivalent on all inputs the service layer accepts. -/
theorem C9_counterexample :
    parse_gemini_json_response (strL "```\ntrue\n```") = some (Json.bool true) ∧
    parse_gemini_response (strL "```\ntrue\n```") = none :=
  ⟨rfl, rfl⟩

/-- C9 (amended): if the service-layer parser succeeds AND its cleaned text
is a brace-delimited object body free of backticks, then the view-layer
parser succeeds with the same value. -/
theorem C9_service_view_refinement {raw mid : List Char} {v : Json}
    (hsvc : parse_gemini_json_response raw = some v)
    (hshape : serviceClean raw = '\x7b' :: mid ++ ['\x7d'])
    (hnb : ∀ c ∈ serviceClean raw, c ≠ '\x60') :
    parse_gemini_response raw = some v := by
  have hbody_nb : ∀ c ∈ '\x7b' :: mid ++ ['\x7d'], c ≠ '\x60' := by
    rw [← hshape]; exact hnb
  have hv : loads ('\x7b' :: mid ++ ['\x7d']) = some v := by
    rw [← hshape]; exact hsvc
  have hsc2 : serviceClean raw =
      pyStrip (serviceClean3 (serviceClean2 (pyStrip raw))) := rfl
  by_cases hpj : patFenceJson.isPrefixOf (pyStrip raw) = true
  · obtain ⟨rest, hrest⟩ := List.isPrefixOf_iff_prefix.mp hpj
    have h2 : serviceClean2 (pyStrip raw) = rest := by
      unfold serviceClean2
      rw [if_pos hpj, ← hrest, show (7 : Nat) = patFenceJson.length from rfl,
        List.drop_left]
    by_cases hsf : patFence.isSuffixOf rest = true
    · obtain ⟨pre, hpre⟩ := List.isSuffixOf_iff_suffix.mp hsf
      have h3 : serviceClean3 rest = pre := by
        unfold serviceClean3
        rw [if_pos hsf, ← hpre,
          show (pre ++ patFence).length - 3 = pre.length by
            rw [List.length_append, patFence_length]; omega,
          List.take_left]
      have hscpre : serviceClean raw = pyStrip pre := by rw [hsc2, h2, h3]
      obtain ⟨u1, u2, hdecomp, hu1, hu2⟩ := pyStrip_decomp pre
      have hbody : pyStrip pre = '\x7b' :: mid ++ ['\x7d'] := by
        rw [← hscpre, hshape]
      have hbs : pyStrip ('\x7b' :: mid ++ ['\x7d']) = '\x7b' :: mid ++ ['\x7d'] := by
        rw [← hbody]
        exact pyStrip_idem pre
      have ht : pyStrip raw =
          patFenceJson ++ (u1 ++ ('\x7b' :: mid ++ ['\x7d']) ++ u2) ++ patFence := by
        rw [← hrest, ← hpre, hdecomp, hbody]
        simp [List.append_assoc]
      exact parse_complete_fence ht hu1 hu2 hbs (by simp) hv
    · have h3 : serviceClean3 rest = rest := by
        unfold serviceClean3
        rw [if_neg hsf]
      have hscrest : serviceClean raw = pyStrip rest := by rw [hsc2, h2, h3]
      obtain ⟨u1, u2, hdecomp, hu1, hu2⟩ := pyStrip_decomp rest
      have hbody : pyStrip rest = '\x7b' :: mid ++ ['\x7d'] := by
        rw [← hscrest, hshape]
      have hu2nil : u2 = [] := by
        rcases u2.eq_nil_or_concat with h | ⟨ys, y, rfl⟩
        · exact h
        · exfalso
          rw [List.concat_eq_append] at hdecomp hu2
          have hlast : (pyStrip raw).getLast? = some y := by
            rw [← hrest, hdecomp]
            rw [show patFenceJson ++ (u1 ++ pyStrip rest ++ (ys ++ [y])) =
                (patFenceJson ++ (u1 ++ pyStrip rest ++ ys)) ++ [y] by
              simp [List.append_assoc]]
            exact List.getLast?_concat _
          have hws := pyStrip_last_not_ws hlast
          have hmem := hu2 y (by simp)
          rw [hmem] at hws
          cases hws
      have ht : pyStrip raw = patFenceJson ++ u1 ++ ('\x7b' :: mid ++ ['\x7d']) := by
        rw [← hrest, hdecomp, hu2nil, hbody]
        simp [List.append_assoc]
      exact parse_partial_fence ht hu1 hbody_nb hv
  · by_cases hpf : patFence.isPrefixOf (pyStrip raw) = true
    · obtain ⟨rest, hrest⟩ := List.isPrefixOf_iff_prefix.mp hpf
      have h2 : serviceClean2 (pyStrip raw) = rest := by
        unfold serviceClean2
        rw [if_neg hpj, if_pos hpf, ← hrest,
          show (3 : Nat) = patFence.length from rfl, List.drop_left]
      by_cases hsf : patFence.isSuffixOf rest = true
      · obtain ⟨pre, hpre⟩ := List.isSuffixOf_iff_suffix.mp hsf
        have h3 : serviceClean3 rest = pre := by
          unfold serviceClean3
          rw [if_pos hsf, ← hpre,
            show (pre ++ patFence).length - 3 = pre.length by
              rw [List.length_append, patFence_length]; omega,
            List.take_left]
        have hscpre : serviceClean raw = pyStrip pre := by rw [hsc2, h2, h3]
        obtain ⟨u1, u2, hdecomp, hu1, hu2⟩ := pyStrip_decomp pre
        have hbody : pyStrip pre = '\x7b' :: mid ++ ['\x7d'] := by
          rw [← hscpre, hshape]
        have ht : pyStrip raw =
            patFence ++ (u1 ++ (('\x7b' :: mid ++ ['\x7d']) ++ (u2 ++ patFence))) := by
          rw [← hrest, ← hpre, hdecomp, hbody]
          simp [List.append_assoc]
        exact parse_untagged_fence ht hu1 hu2 (Or.inr rfl) hbody_nb hv
      · have h3 : serviceClean3 rest = rest := by
          unfold serviceClean3
          rw [if_neg hsf]
        have hscrest : serviceClean raw = pyStrip rest := by rw [hsc2, h2, h3]
        obtain ⟨u1, u2, hdecomp, hu1, hu2⟩ := pyStrip_decomp rest
        have hbody : pyStrip rest = '\x7b' :: mid ++ ['\x7d'] := by
          rw [← hscrest, hshape]
        have hu2nil : u2 = [] := by
          rcases u2.eq_nil_or_concat with h | ⟨ys, y, rfl⟩
          · exact h
          · exfalso
            rw [List.concat_eq_append] at hdecomp hu2
            have hlast : (pyStrip raw).getLast? = some y := by
              rw [← hrest, hdecomp]
              rw [show patFence ++ (u1 ++ pyStrip rest ++ (ys ++ [y])) =
                  (patFence ++ (u1 ++ pyStrip rest ++ ys)) ++ [y] by
                simp [List.append_assoc]]
              exact List.getLast?_concat _
            have hws := pyStrip_last_not_ws hlast
            have hmem := hu2 y (by simp)
            rw [hmem] at hws
            cases hws
        have ht : pyStrip raw =
            patFence ++ (u1 ++ (('\x7b' :: mid ++ ['\x7d']) ++
              (([] : List Char) ++ ([] : List Char)))) := by
          rw [← hrest, hdecomp, hu2nil, hbody]
          simp [List.append_assoc]
        exact parse_untagged_fence ht hu1 (by simp) (Or.inl rfl) hbody_nb hv
    · have h2 : serviceClean2 (pyStrip raw) = pyStrip raw := by
        unfold serviceClean2
        rw [if_neg hpj, if_neg hpf]
      by_cases hsf : patFence.isSuffixOf (pyStrip raw) = true
      · -- trailing fence only: the service strips it; stages 1-3 of the
        -- view fail on the stray fence and stage 4 recovers the body
        obtain ⟨pre, hpre⟩ := List.isSuffixOf_iff_suffix.mp hsf
        have h3 : serviceClean3 (pyStrip raw) = pre := by
          unfold serviceClean3
          rw [if_pos hsf, ← hpre,
            show (pre ++ patFence).length - 3 = pre.length by
              rw [List.length_append, patFence_length]; omega,
            List.take_left]
        have hscpre : serviceClean raw = pyStrip pre := by rw [hsc2, h2, h3]
        obtain ⟨u1, u2, hdecomp, hu1, hu2⟩ := pyStrip_decomp pre
        have hbody : pyStrip pre = '\x7b' :: mid ++ ['\x7d'] := by
          rw [← hscpre, hshape]
        have hu1nil : u1 = [] := by
          rcases u1 with _ | ⟨a, t⟩
          · rfl
          · exfalso
            have hhead : pyStrip raw =
                a :: (t ++ (('\x7b' :: mid ++ ['\x7d']) ++ (u2 ++ patFence))) := by
              rw [← hpre, hdecomp, hbody]
              simp [List.append_assoc]
            have hws := pyStrip_head_not_ws hhead
            rw [hu1 a (by simp)] at hws
            cases hws
        have hcl : pyStrip raw =
            ('\x7b' :: mid ++ ['\x7d']) ++ (u2 ++ patFence) := by
          rw [← hpre, hdecomp, hu1nil, hbody]
          simp [List.append_assoc]
        have hclM : pyStrip raw =
            (('\x7b' :: mid ++ ['\x7d']) ++ u2) ++ patFence := by
          rw [hcl]
          exact (List.append_assoc _ _ _).symm
        have hM_nb : '\x60' ∉ ('\x7b' :: mid ++ ['\x7d']) ++ u2 := by
          intro hmem
          rcases List.mem_append.mp hmem with h1 | h1
          · exact absurd rfl (hbody_nb _ h1)
          · have := hu2 _ h1
            simp [isPyWs] at this
        have hs1 : stage1 (pyStrip raw) = none := by
          unfold stage1
          rw [hcl, show patFence = ['\x60', '\x60', '\x60'] from rfl]
          exact loads_body_fence_none hu2
        have hnofj : ∀ j, occursAt patFenceJson (pyStrip raw) j = false := by
          intro j
          cases hocc : occursAt patFenceJson (pyStrip raw) j with
          | false => rfl
          | true =>
            exfalso
            have hlen := occursAt_length_le (by decide) hocc
            have hhd := occursAt_head (P := patFenceJson) rfl hocc
            rw [hclM] at hhd hlen
            have hge := backtick_index_ge hM_nb hhd
            simp only [List.length_append, List.length_cons, List.length_nil,
              patFence_length, patFenceJson_length] at hlen hge
            omega
        have hnofind : findSub patFenceJson (pyStrip raw) = none :=
          (findSub_eq_none_iff (by decide) _).mpr hnofj
        have hs2 : stage2 (pyStrip raw) = none := by
          unfold stage2
          rw [if_neg (by unfold containsSub; rw [hnofind]; simp)]
        have hs3 : stage3 (pyStrip raw) = none := by
          unfold stage3
          rw [hnofind]
        have hifind : findSub (strL "\x7b") (pyStrip raw) = some 0 := by
          rw [findSub_eq_some_iff (by decide)]
          refine ⟨?_, fun j hj => absurd hj (Nat.not_lt_zero j)⟩
          rw [occursAt_eq_true_iff]
          refine ⟨mid ++ ['\x7d'] ++ (u2 ++ patFence), ?_⟩
          rw [List.drop_zero, hcl]
          simp only [List.append_assoc, List.cons_append, List.singleton_append]
          rfl
        have hjfind : rfindSub (strL "\x7d") (pyStrip raw) =
            some (1 + mid.length) := by
          rw [rfindSub_eq_some_iff (by decide)]
          constructor
          · rw [occursAt_eq_true_iff]
            refine ⟨u2 ++ patFence, ?_⟩
            have hB : pyStrip raw =
                ('\x7b' :: mid) ++ (['\x7d'] ++ (u2 ++ patFence)) := by
              rw [hcl]
              simp [List.append_assoc]
            have hBlen : ('\x7b' :: mid).length = 1 + mid.length := by
              simp only [List.length_cons]
              omega
            rw [hB, ← hBlen, List.drop_left]
            rfl
          · intro j hj
            cases hocc : occursAt (strL "\x7d") (pyStrip raw) j with
            | false => rfl
            | true =>
              exfalso
              have hhd := occursAt_head (P := strL "\x7d") rfl hocc
              have hClen : ('\x7b' :: mid ++ ['\x7d']).length =
                  1 + mid.length + 1 := by
                simp only [List.length_append, List.length_cons, List.length_nil]
                omega
              rw [hcl, List.getElem?_append_right (by rw [hClen]; omega)] at hhd
              have hmem := List.getElem?_mem hhd
              rcases List.mem_append.mp hmem with hmem | hmem
              · have := hu2 _ hmem
                simp [isPyWs] at this
              · rw [show patFence = ['\x60', '\x60', '\x60'] from rfl] at hmem
                simp at hmem
        have hs4 : stage4 (pyStrip raw) = some v := by
          unfold stage4
          rw [hifind, hjfind]
          show (if 0 < 1 + mid.length then
              loads (pySlice (pyStrip raw) 0 (1 + mid.length + 1))
            else none) = some v
          rw [if_pos (by omega)]
          have hslice : pySlice (pyStrip raw) 0 (1 + mid.length + 1) =
              '\x7b' :: mid ++ ['\x7d'] := by
            unfold pySlice
            rw [List.drop_zero, hcl,
              show 1 + mid.length + 1 - 0 = ('\x7b' :: mid ++ ['\x7d']).length by
                simp only [List.length_append, List.length_cons, List.length_nil]
                omega,
              List.take_left]
          rw [hslice, hv]
        rw [parse_gemini_response_eq_staged, hs1, hs2, hs3]
        exact hs4
      · have h3 : serviceClean3 (pyStrip raw) = pyStrip raw := by
          unfold serviceClean3
          rw [if_neg hsf]
        have hsc : serviceClean raw = pyStrip raw := by
          rw [hsc2, h2, h3, pyStrip_idem]
        have hs1 : stage1 (pyStrip raw) = some v := by
          show loads (pyStrip raw) = some v
          rw [← hsc]
          exact hsvc
        rw [parse_gemini_response_eq_staged, hs1]

/-- Witness for C9: a completely fenced object response is accepted by both
parsers with the same value, discharging every hypothesis concretely. -/
theorem C9_witness :
    parse_gemini_json_response (strL "```json\n\x7b\"a\": 9\x7d\n```") =
      some (Json.obj [(strL "a", Json.num ⟨9, 1⟩)]) ∧
    parse_gemini_response (strL "```json\n\x7b\"a\": 9\x7d\n```") =
      some (Json.obj [(strL "a", Json.num ⟨9, 1⟩)]) :=
  ⟨rfl,
    @C9_service_view_refinement (strL "```json\n\x7b\"a\": 9\x7d\n```")
      (strL "\"a\": 9") (Json.obj [(strL "a", Json.num ⟨9, 1⟩)])
      (by rfl) (by rfl) (by decide)⟩

/-! ## Claim C1: the four recovery strategies and fail-closed behaviour -/

/-- C1 counterexample: the text `x \x7b"a": 1\x7d y \x7b"b": 2\x7d z` contains
a brace-delimited JSON object (`\x7b"a": 1\x7d`), yet `parse_gemini_response`
fails on it: the final fallback is greedy, slicing from the first `\x7b` to
the LAST `\x7d`, and that span (`\x7b"a": 1\x7d y \x7b"b": 2\x7d`) is not
valid JSON. -/
theorem C1_counterexample :
    (strL "x \x7b\"a\": 1\x7d y \x7b\"b\": 2\x7d z" =
        strL "x " ++ strL "\x7b\"a\": 1\x7d" ++ strL " y \x7b\"b\": 2\x7d z" ∧
      loads (strL "\x7b\"a\": 1\x7d") =
        some (Json.obj [(strL "a", Json.num ⟨1, 1⟩)])) ∧
    parse_gemini_response (strL "x \x7b\"a\": 1\x7d y \x7b\"b\": 2\x7d z") =
      none :=
  ⟨⟨rfl, rfl⟩, rfl⟩

/-- C1 (amended): `parse_gemini_response` returns the parsed JSON value for
(1) a bare JSON value, (2) a JSON body in a complete ` ```json ` fenced
block, (3) a partially fenced block (` ```json ` with no closing fence)
whose body is a brace-delimited object, and (4) text whose span from the
FIRST `\x7b` to the LAST `\x7d` (the greedy fallback — not the earliest
brace-delimited span) is valid JSON once the first three stages fail; and
(5) it fails closed exactly when all four stages fail. -/
theorem C1_four_stage_recovery :
    (∀ raw v, loads (pyStrip raw) = some v →
      parse_gemini_response raw = some v) ∧
    (∀ raw w1 body w2 v,
      pyStrip raw = patFenceJson ++ (w1 ++ body ++ w2) ++ patFence →
      (∀ c ∈ w1, isPyWs c = true) → (∀ c ∈ w2, isPyWs c = true) →
      pyStrip body = body → body ≠ [] → loads body = some v →
      parse_gemini_response raw = some v) ∧
    (∀ raw w1 mid v,
      pyStrip raw = patFenceJson ++ w1 ++ ('\x7b' :: mid ++ ['\x7d']) →
      (∀ c ∈ w1, isPyWs c = true) →
      (∀ c ∈ '\x7b' :: mid ++ ['\x7d'], c ≠ '\x60') →
      loads ('\x7b' :: mid ++ ['\x7d']) = some v →
      parse_gemini_response raw = some v) ∧
    (∀ raw i j v,
      stage1 (pyStrip raw) = none → stage2 (pyStrip raw) = none →
      stage3 (pyStrip raw) = none →
      findSub (strL "\x7b") (pyStrip raw) = some i →
      rfindSub (strL "\x7d") (pyStrip raw) = some j → i < j →
      loads (pySlice (pyStrip raw) i (j + 1)) = some v →
      parse_gemini_response raw = some v) ∧
    (∀ raw, parse_gemini_response raw = none ↔
      stage1 (pyStrip raw) = none ∧ stage2 (pyStrip raw) = none ∧
      stage3 (pyStrip raw) = none ∧ stage4 (pyStrip raw) = none) := by
  refine ⟨?_, ?_, ?_, ?_, ?_⟩
  · intro raw v h
    rw [parse_gemini_response_eq_staged]
    have h1 : stage1 (pyStrip raw) = some v := h
    rw [h1]
  · intro raw w1 body w2 v ht hw1 hw2 hbs hbne hv
    exact parse_complete_fence ht hw1 hw2 hbs hbne hv
  · intro raw w1 mid v ht hw1 hnb hv
    exact parse_partial_fence ht hw1 hnb hv
  · intro raw i j v hs1 hs2 hs3 hi hj hij hv
    rw [parse_gemini_response_eq_staged]
    simp only [hs1, hs2, hs3]
    unfold stage4
    simp only [hi, hj]
    rw [if_pos hij]
    exact hv
  · intro raw
    rw [parse_gemini_response_eq_staged]
    rcases h1 : stage1 (pyStrip raw) with _ | v1 <;>
      rcases h2 : stage2 (pyStrip raw) with _ | v2 <;>
        rcases h3 : stage3 (pyStrip raw) with _ | v3 <;>
          simp [h1, h2, h3]

/-- Witness for C1: each of the five parts applied at a concrete input, with
every hypothesis discharged by evaluation. -/
theorem C1_witness :
    parse_gemini_response (strL "\x7b\"a\": 1\x7d") =
      some (Json.obj [(strL "a", Json.num ⟨1, 1⟩)]) ∧
    parse_gemini_response (strL "```json\n\x7b\"a\": 2\x7d\n```") =
      some (Json.obj [(strL "a", Json.num ⟨2, 1⟩)]) ∧
    parse_gemini_response (strL "```json\n\x7b\"a\": 3\x7d") =
      some (Json.obj [(strL "a", Json.num ⟨3, 1⟩)]) ∧
    parse_gemini_response (strL "note \x7b\"a\": 4\x7d end") =
      some (Json.obj [(strL "a", Json.num ⟨4, 1⟩)]) ∧
    parse_gemini_response (strL "no json here") = none := by
  refine ⟨?_, ?_, ?_, ?_, ?_⟩
  · exact C1_four_stage_recovery.1 _ _ (by rfl)
  · exact C1_four_stage_recovery.2.1 (strL "```json\n\x7b\"a\": 2\x7d\n```")
      (strL "\n") (strL "\x7b\"a\": 2\x7d") (strL "\n") _
      (by rfl) (by decide) (by decide) (by rfl) (by decide) (by rfl)
  · exact C1_four_stage_recovery.2.2.1 (strL "```json\n\x7b\"a\": 3\x7d")
      (strL "\n") (strL "\"a\": 3") _
      (by rfl) (by decide) (by decide) (by rfl)
  · exact C1_four_stage_recovery.2.2.2.1 (strL "note \x7b\"a\": 4\x7d end")
      5 12 _ (by rfl) (by rfl) (by rfl) (by rfl) (by rfl) (by decide) (by rfl)
  · exact (C1_four_stage_recovery.2.2.2.2 (strL "no json here")).mpr
      ⟨by rfl, by rfl, by rfl, by rfl⟩

/-! ## Claim C2: the exact order and shape of the parsing steps -/

/-- C2 counterexample: the spec-worded routine (`specParseResponse`, whose
final fallback takes the EARLIEST brace-delimited span) and the code
(`parse_gemini_response`, whose final fallback is greedy) disagree on
`x \x7b"a": 1\x7d y \x7b"b": 2\x7d z`: the spec reading recovers
`\x7b"a": 1\x7d`, the code fails. -/
theorem C2_counterexample :
    specParseResponse (strL "x \x7b\"a\": 1\x7d y \x7b\"b\": 2\x7d z") =
      some (Json.obj [(strL "a", Json.num ⟨1, 1⟩)]) ∧
    parse_gemini_response (strL "x \x7b\"a\": 1\x7d y \x7b\"b\": 2\x7d z") =
      none :=
  ⟨rfl, rfl⟩

/-- C2 (amended): the routine runs exactly the four stages in order — strip
and parse, then the ` ```json `-block slice, then the lazy fenced-block
search, then the greedy brace search — and the final fallback parses the
span from the first `\x7b` to the LAST `\x7d` of the text (not the earliest
brace-delimited span). -/
theorem C2_step_order :
    (∀ raw, parse_gemini_response raw =
      match stage1 (pyStrip raw) with
      | some v => some v
      | none =>
        match stage2 (pyStrip raw) with
        | some v => some v
        | none =>
          match stage3 (pyStrip raw) with
          | some v => some v
          | none => stage4 (pyStrip raw)) ∧
    (∀ cleaned i j,
      findSub (strL "\x7b") cleaned = some i →
      rfindSub (strL "\x7d") cleaned = some j →
      stage4 cleaned = if i < j then loads (pySlice cleaned i (j + 1))
        else none) := by
  refine ⟨parse_gemini_response_eq_staged, ?_⟩
  intro cleaned i j hi hj
  unfold stage4
  simp only [hi, hj]

/-- Witness for C2: the greedy-fallback characterisation applied at the
two-object text, whose first `\x7b` is at index 2 and last `\x7d` at 20. -/
theorem C2_witness :
    stage4 (strL "x \x7b\"a\": 1\x7d y \x7b\"b\": 2\x7d z") =
      if 2 < 20 then
        loads (pySlice (strL "x \x7b\"a\": 1\x7d y \x7b\"b\": 2\x7d z") 2 21)
      else none :=
  C2_step_order.2 _ 2 20 (by rfl) (by rfl)
